import Mathlib

/-!
# RZLBus state registry and its HTTP handlers

A shallow embedding of `rzlbus/rzlbus.go`: the process-wide `state` map, the
registration operations `SetState` / `SetWritableState`, the handlers
`handle_state` and `handle_reboot`, and the header parser `GetBasicAuth`.

Modelling conventions.

* A Go `string` or `[]byte` is the list of its bytes, each a natural number.
* A Go `map[string]α` is the list of its entries in the order a `range`
  statement visits them; a well-formed map has pairwise distinct keys.
* The package variable `state` is passed in and returned explicitly.
* A `StateModifiedCallback` is host code outside the package. It is represented
  by an identifier, a nil func value by `none`, and every invocation is
  recorded in order together with its three arguments. Callbacks are taken to
  return normally and not to re-enter the registry.
* `interface{}` values are an arbitrary type `V`; `default` is the nil
  interface value.
* A run of the process is a sequence of host registrations and served requests;
  `Reachable` collects the registries such runs lead to. Handlers run one at a
  time: goroutine interleavings are not represented.
* `encoding/json`, `encoding/base64`, `regexp` and `bytes` belong to the Go
  standard library. The JSON functions are parameters of the handler; the other
  three are modelled by their documented behaviour on the inputs used here.
-/

namespace Rzlbus

/-! ## Go strings and maps -/

/-- A Go `string` / `[]byte` as its sequence of bytes. -/
abbrev GoString := List Nat

/-- The bytes of an ASCII string literal of the source. -/
def lit (s : String) : GoString := s.data.map Char.toNat

/-- A Go `map[string]α`: its entries, in `range` order. -/
abbrev GoMap (α : Type) := List (GoString × α)

/-- The keys of a map, in `range` order. -/
def mapKeys {α : Type} (m : GoMap α) : List GoString := m.map Prod.fst

/-- The two-result index expression `v, ok := m[k]`. -/
def mapIndex {α : Type} : GoMap α → GoString → Option α
  | [], _ => none
  | (k1, v) :: rest, k => if k1 = k then some v else mapIndex rest k

/-- The assignment `m[k] = v`: replaces the binding of `k`, or adds one. -/
def mapAssign {α : Type} : GoMap α → GoString → α → GoMap α
  | [], k, v => [(k, v)]
  | (k1, v1) :: rest, k, v =>
    if k1 = k then (k, v) :: rest else (k1, v1) :: mapAssign rest k v

/-- The library function `strings.HasPrefix(s, p)`. -/
def strings_HasPrefix (s p : GoString) : Bool := p.isPrefixOf s

/-! ## Data model -/

/-- The type `StateModifiedCallback`: a host function, known by its identity. -/
abbrev StateModifiedCallback := Nat

/-- The struct `stateEntry`. A nil `ModifiedCallback` is `none`. -/
structure stateEntry (V : Type) where
  Value : V
  Writable : Bool
  ModifiedCallback : Option StateModifiedCallback
deriving DecidableEq, Repr

/-- The zero value of `stateEntry`, as produced by `var entry stateEntry` and by
indexing a map at a missing key. -/
def zeroEntry (V : Type) [Inhabited V] : stateEntry V :=
  { Value := default, Writable := false, ModifiedCallback := none }

/-- One invocation of a callback: which function was called, and with what. -/
structure Invocation (V : Type) where
  callback : StateModifiedCallback
  key : GoString
  oldValue : V
  newValue : V
deriving DecidableEq, Repr

/-- What the client of a handler gets: a status code with a body, or nothing
because the handler goroutine panicked, or nothing because `log.Fatal` ended
the process. -/
inductive Reply where
  | http (status : Nat) (body : GoString)
  | panicked
  | fatal
deriving DecidableEq, Repr

/-- The effect of running a handler: the registry afterwards, the callback
invocations it made, and the reply. -/
structure Result (V : Type) where
  state : GoMap (stateEntry V)
  calls : List (Invocation V)
  reply : Reply
deriving DecidableEq, Repr

/-- The fields of `*http.Request` the package reads. `Authorization` is
`r.Header.Get("Authorization")`, empty when the header is missing. -/
structure Request where
  Method : GoString
  Path : GoString
  Authorization : GoString
  Body : GoString
deriving DecidableEq, Repr

/-- The decoded variable `postedState map[string]interface{}`, as seen by the
two `range` loops of `handle_state`: both visit the same entries, with distinct
keys, each in an order of its own. -/
structure PostedState (V : Type) where
  validateOrder : GoMap V
  commitOrder : GoMap V
  distinct : (mapKeys validateOrder).Nodup
  same : commitOrder.Perm validateOrder

/-- The two functions of `encoding/json` the handler calls. An error carries
the text of `err.String()`. -/
structure JSON (V : Type) where
  MarshalIndent : GoMap V → Except GoString GoString
  Unmarshal : GoString → Except GoString (PostedState V)

/-! ## Registration -/

/-- The function `Init`, as far as the registry goes: `state` becomes an empty map. -/
def Init (V : Type) : GoMap (stateEntry V) := []

/-- The function `SetState`. -/
def SetState {V : Type} (state : GoMap (stateEntry V)) (key : GoString) (value : V) :
    GoMap (stateEntry V) :=
  mapAssign state key { Value := value, Writable := false, ModifiedCallback := none }

/-- The function `SetWritableState`. The callback may be nil. -/
def SetWritableState {V : Type} (state : GoMap (stateEntry V)) (key : GoString) (value : V)
    (callback : Option StateModifiedCallback) : GoMap (stateEntry V) :=
  mapAssign state key { Value := value, Writable := true, ModifiedCallback := callback }

/-! ## The state handler -/

/-- The loop of the GET branch: `filteredState`, built entry by entry. -/
def filterState {V : Type} (state : GoMap (stateEntry V)) (filter : GoString) : GoMap V :=
  state.foldl
    (fun filteredState ke =>
      if filter = [] || strings_HasPrefix ke.1 filter then
        mapAssign filteredState ke.1 ke.2.Value
      else filteredState)
    []

/-- The body written for a missing key. -/
def notFoundText (postedKey : GoString) : GoString :=
  lit "The key \"" ++ postedKey ++ lit "\" was not found."

/-- The body written for a read-only key. -/
def notWritableText (postedKey : GoString) : GoString :=
  lit "The key \"" ++ postedKey ++ lit "\" is not writable."

/-- The first loop of the POST branch: the reply of the first key that fails the
check, if any. -/
def validate {V : Type} (state : GoMap (stateEntry V)) : GoMap V → Option Reply
  | [] => none
  | (postedKey, _) :: rest =>
    match mapIndex state postedKey with
    | none => some (Reply.http 404 (notFoundText postedKey))
    | some entry =>
      if !entry.Writable then some (Reply.http 403 (notWritableText postedKey))
      else validate state rest

/-- The second loop of the POST branch followed by the final write. Calling a
nil callback panics, after the entry has been stored. -/
def commit {V : Type} [Inhabited V] (state : GoMap (stateEntry V)) : GoMap V → Result V
  | [] => { state := state, calls := [], reply := Reply.http 200 (lit "State modified successfully.") }
  | (postedKey, postedValue) :: rest =>
    let entry := (mapIndex state postedKey).getD (zeroEntry V)
    let oldValue := entry.Value
    let entry1 := { entry with Value := postedValue }
    let state1 := mapAssign state postedKey entry1
    match entry1.ModifiedCallback with
    | none => { state := state1, calls := [], reply := Reply.panicked }
    | some cb =>
      let r := commit state1 rest
      { r with calls := { callback := cb, key := postedKey, oldValue := oldValue,
                          newValue := postedValue } :: r.calls }

/-- The function `handle_state`. -/
def handle_state {V : Type} [Inhabited V] (json : JSON V) (state : GoMap (stateEntry V))
    (r : Request) : Result V :=
  if r.Method = lit "GET" then
    -- r.URL.Path[len("/_/state/"):] panics when the path is shorter
    if r.Path.length < 9 then { state := state, calls := [], reply := Reply.panicked }
    else
      let filter := r.Path.drop 9
      match json.MarshalIndent (filterState state filter) with
      | Except.error _ => { state := state, calls := [], reply := Reply.fatal }
      | Except.ok bytes => { state := state, calls := [], reply := Reply.http 200 bytes }
  else if r.Method = lit "POST" then
    match json.Unmarshal r.Body with
    | Except.error err =>
      { state := state, calls := [],
        reply := Reply.http 500 (lit "Could not decode JSON into a single map: " ++ err) }
    | Except.ok postedState =>
      match validate state postedState.validateOrder with
      | some reply => { state := state, calls := [], reply := reply }
      | none => commit state postedState.commitOrder
  else
    { state := state, calls := [],
      reply := Reply.http 501 (lit "HTTP Method not implemented, use GET or POST") }

/-! ## Basic authentication -/

/-- The character class `[a-zA-Z0-9\+/=]` of `basic_auth_rgx`. -/
def inAuthClass (c : Nat) : Bool :=
  (97 ≤ c && c ≤ 122) || (65 ≤ c && c ≤ 90) || (48 ≤ c && c ≤ 57) || c == 43 || c == 47
    || c == 61

/-- The call `basic_auth_rgx.FindStringSubmatch(auth)` for the pattern
`^Basic ([a-zA-Z0-9\+/=]+)`: no match gives the empty slice; a match gives the
matched text and the group, which is the longest run of class bytes after
"Basic ". The pattern is anchored at the start only. -/
def basic_auth_rgx_FindStringSubmatch (auth : GoString) : List GoString :=
  if (lit "Basic ").isPrefixOf auth then
    let group := (auth.drop 6).takeWhile inAuthClass
    if group = [] then [] else [lit "Basic " ++ group, group]
  else []

/-- The table `decodeMap` of `base64.StdEncoding`: the 6-bit value of an alphabet
byte, and 255 for every other byte. -/
def decodeMap (c : Nat) : Nat :=
  if 65 ≤ c ∧ c ≤ 90 then c - 65
  else if 97 ≤ c ∧ c ≤ 122 then c - 71
  else if 48 ≤ c ∧ c ≤ 57 then c + 4
  else if c = 43 then 62
  else if c = 47 then 63
  else 255

/-- The alphabet of `base64.StdEncoding`: the byte that stands for a 6-bit value. -/
def encodeMap (s : Nat) : Nat :=
  if s < 26 then s + 65
  else if s < 52 then s + 71
  else if s < 62 then s - 4
  else if s = 62 then 43
  else 47

/-- The library function `base64.StdEncoding.DecodeString`, with `none` for a
non-nil error. The input is read four bytes at a time; each quantum yields three
bytes; only the last quantum may end in one or two padding bytes `=`, yielding
two bytes or one; anything else is corrupt input. -/
def base64_DecodeString : GoString → Option GoString
  | [] => some []
  | a :: b :: c :: d :: rest =>
    if decodeMap a = 255 ∨ decodeMap b = 255 then none
    else if rest = [] ∧ c = 61 then
      if d = 61 then some [decodeMap a * 4 + decodeMap b / 16] else none
    else if decodeMap c = 255 then none
    else if rest = [] ∧ d = 61 then
      some [decodeMap a * 4 + decodeMap b / 16, decodeMap b % 16 * 16 + decodeMap c / 4]
    else if decodeMap d = 255 then none
    else
      match base64_DecodeString rest with
      | none => none
      | some tail =>
        some ([decodeMap a * 4 + decodeMap b / 16, decodeMap b % 16 * 16 + decodeMap c / 4,
          decodeMap c % 4 * 64 + decodeMap d] ++ tail)
  | _ => none

/-- The library function `base64.StdEncoding.EncodeToString`: the standard
base64 encoding of a byte string, with padding. -/
def base64_EncodeToString : GoString → GoString
  | [] => []
  | [a] => [encodeMap (a / 4), encodeMap (a % 4 * 16), 61, 61]
  | [a, b] => [encodeMap (a / 4), encodeMap (a % 4 * 16 + b / 16), encodeMap (b % 16 * 4), 61]
  | a :: b :: c :: rest =>
    encodeMap (a / 4) :: encodeMap (a % 4 * 16 + b / 16) :: encodeMap (b % 16 * 4 + c / 64)
      :: encodeMap (c % 64) :: base64_EncodeToString rest

/-- The library call `bytes.SplitN(buf, sep, 2)` for a one-byte separator, when
the separator occurs: the bytes before its first occurrence and those after it. -/
def cutAtFirst (sep : Nat) : GoString → Option (GoString × GoString)
  | [] => none
  | c :: rest =>
    if c = sep then some ([], rest)
    else
      match cutAtFirst sep rest with
      | none => none
      | some (before, after) => some (c :: before, after)

/-- The library call `bytes.SplitN(buf, []byte{':'}, 2)`: one slice, `buf`
itself, when `buf` has no colon, else the two slices around the first colon. -/
def bytes_SplitN_colon_2 (buf : GoString) : List GoString :=
  match cutAtFirst 58 buf with
  | none => [buf]
  | some (before, after) => [before, after]

/-- The function `GetBasicAuth`. -/
def GetBasicAuth (r : Request) : GoString × GoString :=
  let auth := r.Authorization
  if auth = [] then ([], [])
  else
    match basic_auth_rgx_FindStringSubmatch auth with
    | [_, m1] =>
      match base64_DecodeString m1 with
      | none => ([], [])
      | some buf =>
        match bytes_SplitN_colon_2 buf with
        | [up0, up1] => (up0, up1)
        | _ => ([], [])
    | _ => ([], [])

/-- The function `handle_reboot`. It has no access to the registry. -/
def handle_reboot (r : Request) : Reply :=
  if r.Method ≠ lit "POST" then
    Reply.http 501 (lit "HTTP Method not implemented, use POST")
  else
    let up := GetBasicAuth r
    if up.1 ≠ lit "foo" ∨ up.2 ≠ lit "bar" then
      Reply.http 403 (lit "Specify user and password")
    else Reply.http 200 (lit "I would totaly reboot now.")

/-- A request that carries the header `Authorization: Basic Zm9vOmJhcg==`. -/
def exAuthRequest : Request :=
  { Method := lit "POST", Path := lit "/_/reboot", Authorization := lit "Basic Zm9vOmJhcg==",
    Body := [] }

/-! ## Vocabulary of the statements -/

/-- The invocation the commit loop owes to a posted pair, read off the registry
as it was before the request: the key's own callback, applied to the key, the
value it held, and the posted value. There is none if the key is missing or has
a nil callback. -/
def invocationFor {V : Type} (state : GoMap (stateEntry V)) (kv : GoString × V) :
    Option (Invocation V) :=
  match mapIndex state kv.1 with
  | none => none
  | some entry =>
    match entry.ModifiedCallback with
    | none => none
    | some cb => some { callback := cb, key := kv.1, oldValue := entry.Value, newValue := kv.2 }

/-! ## A concrete host: the door / message scenario -/

/-- A registry with a read-only key `door` = "locked" and a writable key `msg` =
"" whose callback is the function number 1. -/
def exState : GoMap (stateEntry GoString) :=
  SetWritableState (SetState (Init GoString) (lit "door") (lit "locked")) (lit "msg") (lit "")
    (some 1)

/-- A JSON library whose decoder yields the given map for every body. -/
def exJSON (postedState : PostedState GoString) : JSON GoString :=
  { MarshalIndent := fun _ => Except.ok [], Unmarshal := fun _ => Except.ok postedState }

/-- A POST request to the state route. -/
def exPost : Request :=
  { Method := lit "POST", Path := lit "/_/state/", Authorization := [], Body := [] }

/-- The batch that maps `msg` to "hello" and `door` to "open", the valid key visited first. -/
def exMixedBatch : PostedState GoString :=
  { validateOrder := [(lit "msg", lit "hello"), (lit "door", lit "open")]
    commitOrder := [(lit "door", lit "open"), (lit "msg", lit "hello")]
    distinct := by decide
    same := by decide }

/-- A registry with two writable keys: `a` registered with a nil callback, `b`
with the function number 1. -/
def exNilState : GoMap (stateEntry GoString) :=
  SetWritableState (SetWritableState (Init GoString) (lit "a") (lit "old") none)
    (lit "b") (lit "old") (some 1)

/-- The batch that maps `a` and `b` to "new"; both loops visit `a` first. -/
def exNilBatch : PostedState GoString :=
  { validateOrder := [(lit "a", lit "new"), (lit "b", lit "new")]
    commitOrder := [(lit "a", lit "new"), (lit "b", lit "new")]
    distinct := by decide
    same := by decide }

/-- The batch that maps `msg` to "hello". -/
def exMsgBatch : PostedState GoString :=
  { validateOrder := [(lit "msg", lit "hello")]
    commitOrder := [(lit "msg", lit "hello")]
    distinct := by decide
    same := by decide }

/-- The batch that maps `door` to "open". -/
def exDoorBatch : PostedState GoString :=
  { validateOrder := [(lit "door", lit "open")]
    commitOrder := [(lit "door", lit "open")]
    distinct := by decide
    same := by decide }

/-- A GET request for the keys that start with "m". -/
def exGet : Request :=
  { Method := lit "GET", Path := lit "/_/state/m", Authorization := [], Body := [] }

/-- A registry whose only key `msg` is writable and was registered with a nil callback. -/
def exSilentState : GoMap (stateEntry GoString) :=
  SetWritableState (Init GoString) (lit "msg") (lit "") none

/-- The batch that maps `door` to "open" and `ghost` to "boo", `door` visited first. -/
def exGhostBatch : PostedState GoString :=
  { validateOrder := [(lit "door", lit "open"), (lit "ghost", lit "boo")]
    commitOrder := [(lit "door", lit "open"), (lit "ghost", lit "boo")]
    distinct := by decide
    same := by decide }

/-- The batch that maps `msg` to "hello" and `ghost` to "boo", `msg` visited first. -/
def exLostBatch : PostedState GoString :=
  { validateOrder := [(lit "msg", lit "hello"), (lit "ghost", lit "boo")]
    commitOrder := [(lit "ghost", lit "boo"), (lit "msg", lit "hello")]
    distinct := by decide
    same := by decide }

/-! ## Requests over time -/

/-- The two handlers that `Init` registers with the HTTP server. -/
inductive Handler where
  | state
  | reboot
deriving DecidableEq, Repr

/-- One request served by a registered handler against the registry.
`handle_reboot` mentions no package variable: the registry passes through it
and no callback runs. -/
def serve {V : Type} [Inhabited V] (json : JSON V) (h : Handler)
    (state : GoMap (stateEntry V)) (r : Request) : Result V :=
  match h with
  | Handler.state => handle_state json state r
  | Handler.reboot => { state := state, calls := [], reply := handle_reboot r }

/-- The registries a process can be in: `Init` creates the empty one, the host
registers keys with `SetState` and `SetWritableState`, and the server runs the
handlers on incoming requests, in any order and any number of times. The
predicate `allowed` says which callbacks the host passes to `SetWritableState`. -/
inductive Reachable {V : Type} [Inhabited V] (allowed : Option StateModifiedCallback → Prop) :
    GoMap (stateEntry V) → Prop where
  | init : Reachable allowed (Init V)
  | setState (state : GoMap (stateEntry V)) (key : GoString) (value : V) :
      Reachable allowed state → Reachable allowed (SetState state key value)
  | setWritableState (state : GoMap (stateEntry V)) (key : GoString) (value : V)
      (callback : Option StateModifiedCallback) :
      allowed callback → Reachable allowed state →
      Reachable allowed (SetWritableState state key value callback)
  | request (state : GoMap (stateEntry V)) (json : JSON V) (h : Handler) (r : Request) :
      Reachable allowed state → Reachable allowed (serve json h state r).state

/-! ## A host that registers an unserialisable value -/

/-- A value of the host: a text, or a Go channel, which `encoding/json` refuses
to encode. -/
inductive ExValue where
  | text (s : GoString)
  | channel
deriving DecidableEq, Repr

instance : Inhabited ExValue := ⟨ExValue.text []⟩

/-- A JSON encoder as far as its failures go: it reports an error when the map
holds a channel and returns some text otherwise. Its decoder accepts no body. -/
def exChanJSON : JSON ExValue :=
  { MarshalIndent := fun m =>
      if m.any (fun kv => kv.2 = ExValue.channel) then
        Except.error (lit "json: unsupported type: chan int")
      else Except.ok (lit "{}")
    Unmarshal := fun _ => Except.error (lit "unexpected end of JSON input") }

/-- A registry in which the host has published a channel under the key `ch`. -/
def exChanState : GoMap (stateEntry ExValue) :=
  SetState (SetState (Init ExValue) (lit "door") (ExValue.text (lit "locked"))) (lit "ch")
    ExValue.channel

/-- A GET request for the whole state. -/
def exGetAll : Request :=
  { Method := lit "GET", Path := lit "/_/state/", Authorization := [], Body := [] }

/-- A JSON library whose decoder rejects every body. -/
def exBadJSON : JSON GoString :=
  { MarshalIndent := fun _ => Except.ok [],
    Unmarshal := fun _ => Except.error (lit "invalid character") }

/-- A DELETE request to the state route. -/
def exDelete : Request :=
  { Method := lit "DELETE", Path := lit "/_/state/", Authorization := [], Body := [] }

/-- A request without an Authorization header, sent with GET. -/
def exNoAuthGet : Request :=
  { Method := lit "GET", Path := lit "/_/reboot", Authorization := [], Body := [] }

/-- A request without an Authorization header. -/
def exNoAuth : Request :=
  { Method := lit "POST", Path := lit "/_/reboot", Authorization := [], Body := [] }

/-- A request whose Authorization header is "Basic !!!invalid!!!". -/
def exInvalidAuth : Request :=
  { Method := lit "POST", Path := lit "/_/reboot", Authorization := lit "Basic !!!invalid!!!",
    Body := [] }

/-- A request whose Authorization header is "Basic Zm9vOmJhcg== trailing": the
encoding of "foo:bar" followed by other bytes. -/
def exTrailingAuth : Request :=
  { Method := lit "POST", Path := lit "/_/reboot",
    Authorization := lit "Basic Zm9vOmJhcg== trailing", Body := [] }

/-! ## Lemmas on maps -/

theorem mapIndex_mapAssign_self {α : Type} (m : GoMap α) (k : GoString) (v : α) :
    mapIndex (mapAssign m k v) k = some v := by
  induction m with
  | nil => simp [mapAssign, mapIndex]
  | cons p rest ih =>
    obtain ⟨k1, v1⟩ := p
    by_cases h : k1 = k
    · simp [mapAssign, mapIndex, h]
    · simp [mapAssign, mapIndex, h, ih]

theorem mapIndex_mapAssign_ne {α : Type} (m : GoMap α) (k q : GoString) (v : α) (hq : k ≠ q) :
    mapIndex (mapAssign m k v) q = mapIndex m q := by
  induction m with
  | nil => simp [mapAssign, mapIndex, hq]
  | cons p rest ih =>
    obtain ⟨k1, v1⟩ := p
    by_cases h : k1 = k
    · subst h
      simp [mapAssign, mapIndex, hq]
    · by_cases h1 : k1 = q
      · subst h1
        simp [mapAssign, mapIndex, h]
      · simp [mapAssign, mapIndex, h, h1, ih]

theorem mapKeys_mapAssign_of_present {α : Type} (m : GoMap α) (k : GoString) (v w : α)
    (hk : mapIndex m k = some w) : mapKeys (mapAssign m k v) = mapKeys m := by
  induction m with
  | nil => simp [mapIndex] at hk
  | cons p rest ih =>
    obtain ⟨k1, v1⟩ := p
    by_cases h : k1 = k
    · simp [mapAssign, mapKeys, h]
    · simp only [mapIndex, h, if_false] at hk
      have := ih hk
      simp only [mapKeys] at this
      simp [mapAssign, mapKeys, h, this]

theorem mapIndex_eq_none_iff {α : Type} (m : GoMap α) (k : GoString) :
    mapIndex m k = none ↔ k ∉ mapKeys m := by
  induction m with
  | nil => simp [mapIndex, mapKeys]
  | cons p rest ih =>
    obtain ⟨k1, v1⟩ := p
    by_cases h : k1 = k
    · simp [mapIndex, mapKeys, h]
    · have h2 : ¬ k = k1 := fun e => h e.symm
      simp only [mapKeys] at ih
      simp [mapIndex, mapKeys, h, h2, ih]

theorem mapKeys_mapAssign_of_absent {α : Type} (m : GoMap α) (k : GoString) (v : α)
    (hk : mapIndex m k = none) : mapKeys (mapAssign m k v) = mapKeys m ++ [k] := by
  induction m with
  | nil => simp [mapAssign, mapKeys]
  | cons p rest ih =>
    obtain ⟨k1, v1⟩ := p
    by_cases h : k1 = k
    · simp [mapIndex, h] at hk
    · simp only [mapIndex, h, if_false] at hk
      have := ih hk
      simp only [mapKeys] at this
      simp [mapAssign, mapKeys, h, this]

theorem mapIndex_of_mem {α : Type} (m : GoMap α) (k : GoString) (v : α)
    (hn : (mapKeys m).Nodup) (hm : (k, v) ∈ m) : mapIndex m k = some v := by
  induction m with
  | nil => simp at hm
  | cons p rest ih =>
    obtain ⟨k1, v1⟩ := p
    simp only [mapKeys, List.map_cons, List.nodup_cons, List.mem_map, not_exists, not_and] at hn
    rcases List.mem_cons.1 hm with h | h
    · cases h
      simp [mapIndex]
    · have hne : k1 ≠ k := fun e => hn.1 (k, v) h e.symm
      simp only [mapIndex, hne, if_false]
      exact ih hn.2 h

theorem mem_of_mapIndex {α : Type} (m : GoMap α) (k : GoString) (v : α)
    (hm : mapIndex m k = some v) : (k, v) ∈ m := by
  induction m with
  | nil => simp [mapIndex] at hm
  | cons p rest ih =>
    obtain ⟨k1, v1⟩ := p
    by_cases h : k1 = k
    · simp only [mapIndex, h, if_true, Option.some.injEq] at hm
      simp [h, hm]
    · simp only [mapIndex, h, if_false] at hm
      exact List.mem_cons_of_mem _ (ih hm)

/-! ## Lemmas on the two loops of the POST branch -/

theorem validate_append_of_valid {V : Type} (state : GoMap (stateEntry V)) (pre l : GoMap V)
    (hpre : ∀ q ∈ mapKeys pre, ∃ e, mapIndex state q = some e ∧ e.Writable = true) :
    validate state (pre ++ l) = validate state l := by
  induction pre with
  | nil => rfl
  | cons p rest ih =>
    obtain ⟨k, v⟩ := p
    obtain ⟨e, he, hw⟩ := hpre k (by simp [mapKeys])
    have hrest : ∀ q ∈ mapKeys rest, ∃ e, mapIndex state q = some e ∧ e.Writable = true := by
      intro q hq
      exact hpre q (by simp only [mapKeys, List.map_cons, List.mem_cons]; exact Or.inr hq)
    simp [validate, he, hw, ih hrest]

theorem validate_eq_none_iff {V : Type} (state : GoMap (stateEntry V)) (l : GoMap V) :
    validate state l = none ↔
      ∀ k ∈ mapKeys l, ∃ e, mapIndex state k = some e ∧ e.Writable = true := by
  induction l with
  | nil => simp [validate, mapKeys]
  | cons p rest ih =>
    obtain ⟨k, v⟩ := p
    simp only [mapKeys] at ih
    cases he : mapIndex state k with
    | none => simp [validate, he, mapKeys]
    | some e =>
      cases hw : e.Writable with
      | false => simp [validate, he, hw, mapKeys]
      | true => simp [validate, he, hw, mapKeys, ih]

theorem validate_eq_some {V : Type} (state : GoMap (stateEntry V)) (l : GoMap V) (rep : Reply)
    (h : validate state l = some rep) :
    ∃ pre k v post, l = pre ++ (k, v) :: post ∧
      (∀ q ∈ mapKeys pre, ∃ e, mapIndex state q = some e ∧ e.Writable = true) ∧
      ((mapIndex state k = none ∧ rep = Reply.http 404 (notFoundText k)) ∨
       (∃ e, mapIndex state k = some e ∧ e.Writable = false ∧
          rep = Reply.http 403 (notWritableText k))) := by
  induction l with
  | nil => simp [validate] at h
  | cons p rest ih =>
    obtain ⟨k, v⟩ := p
    cases he : mapIndex state k with
    | none =>
      simp only [validate, he, Option.some.injEq] at h
      exact ⟨[], k, v, rest, rfl, by simp [mapKeys], Or.inl ⟨he, h.symm⟩⟩
    | some e =>
      cases hw : e.Writable with
      | false =>
        simp [validate, he, hw] at h
        exact ⟨[], k, v, rest, rfl, by simp [mapKeys], Or.inr ⟨e, he, hw, h.symm⟩⟩
      | true =>
        simp [validate, he, hw] at h
        obtain ⟨pre, k2, v2, post, hl, hpre, hcase⟩ := ih h
        refine ⟨(k, v) :: pre, k2, v2, post, by simp [hl], ?_, hcase⟩
        intro q hq
        simp only [mapKeys, List.map_cons, List.mem_cons] at hq
        rcases hq with hq | hq
        · subst hq
          exact ⟨e, he, hw⟩
        · exact hpre q hq

theorem commit_frame {V : Type} [Inhabited V] (l : GoMap V) (state : GoMap (stateEntry V))
    (q : GoString) (hq : q ∉ mapKeys l) :
    mapIndex (commit state l).state q = mapIndex state q := by
  induction l generalizing state with
  | nil => rfl
  | cons p rest ih =>
    obtain ⟨k, v⟩ := p
    simp only [mapKeys, List.map_cons, List.mem_cons, not_or] at hq
    have hne : k ≠ q := fun e => hq.1 e.symm
    simp only [commit]
    split
    · exact mapIndex_mapAssign_ne _ _ _ _ hne
    · simp only
      rw [ih _ hq.2]
      exact mapIndex_mapAssign_ne _ _ _ _ hne

theorem commit_ok {V : Type} [Inhabited V] (l : GoMap V) (state : GoMap (stateEntry V))
    (hn : (mapKeys l).Nodup)
    (hcb : ∀ k ∈ mapKeys l, ∃ e cb, mapIndex state k = some e ∧ e.ModifiedCallback = some cb) :
    (commit state l).reply = Reply.http 200 (lit "State modified successfully.") ∧
    (commit state l).calls.map some = l.map (invocationFor state) ∧
    mapKeys (commit state l).state = mapKeys state ∧
    (∀ kv ∈ l, ∀ e, mapIndex state kv.1 = some e →
      mapIndex (commit state l).state kv.1 = some { e with Value := kv.2 }) := by
  induction l generalizing state with
  | nil => simp [commit]
  | cons p rest ih =>
    obtain ⟨k, v⟩ := p
    simp only [mapKeys, List.map_cons, List.nodup_cons] at hn
    obtain ⟨e, cb, he, hc⟩ := hcb k (by simp [mapKeys])
    obtain ⟨ev, ew, ec⟩ := e
    simp only at hc
    subst hc
    have hfresh : ∀ q ∈ mapKeys rest, k ≠ q := fun q hq e => hn.1 (e ▸ hq)
    have hlook : ∀ q ∈ mapKeys rest,
        mapIndex (mapAssign state k ⟨v, ew, some cb⟩) q = mapIndex state q :=
      fun q hq => mapIndex_mapAssign_ne _ _ _ _ (hfresh q hq)
    have hcb1 : ∀ q ∈ mapKeys rest, ∃ e1 cb1,
        mapIndex (mapAssign state k ⟨v, ew, some cb⟩) q = some e1 ∧
          e1.ModifiedCallback = some cb1 := by
      intro q hq
      rw [hlook q hq]
      exact hcb q (by simp only [mapKeys, List.map_cons, List.mem_cons]; exact Or.inr hq)
    obtain ⟨h1, h2, h3, h4⟩ := ih (mapAssign state k ⟨v, ew, some cb⟩) hn.2 hcb1
    have hinv : ∀ kv ∈ rest,
        invocationFor (mapAssign state k ⟨v, ew, some cb⟩) kv = invocationFor state kv := by
      intro kv hkv
      have : kv.1 ∈ mapKeys rest := List.mem_map_of_mem Prod.fst hkv
      simp only [invocationFor, hlook kv.1 this]
    simp only [commit, he, Option.getD_some]
    refine ⟨h1, ?_, ?_, ?_⟩
    · simp only [List.map_cons, h2, invocationFor, he]
      congr 1
      exact List.map_congr_left hinv
    · rw [h3]
      exact mapKeys_mapAssign_of_present _ _ _ _ he
    · intro kv hkv e2 he2
      rcases List.mem_cons.1 hkv with hkv | hkv
      · subst hkv
        simp only at he2 ⊢
        rw [he] at he2
        cases he2
        rw [commit_frame _ _ _ hn.1]
        exact mapIndex_mapAssign_self _ _ _
      · have hmem : kv.1 ∈ mapKeys rest := List.mem_map_of_mem Prod.fst hkv
        exact h4 kv hkv e2 (by rw [hlook kv.1 hmem]; exact he2)

/-! ## Bulk write: failure leaves no trace -/

theorem post_ne_get : ¬ (lit "POST" = lit "GET") := by decide

/-- C1: a POST whose batch contains at least one key that is absent from the
registry or read-only leaves the registry exactly as it was and invokes no
callback, wherever in the iteration order the invalid key stands. -/
theorem handle_state_post_atomic {V : Type} [Inhabited V] (json : JSON V)
    (state : GoMap (stateEntry V)) (r : Request) (postedState : PostedState V)
    (hmethod : r.Method = lit "POST")
    (hdecode : json.Unmarshal r.Body = Except.ok postedState)
    (hbad : ∃ k ∈ mapKeys postedState.validateOrder,
      mapIndex state k = none ∨ ∃ e, mapIndex state k = some e ∧ e.Writable = false) :
    (handle_state json state r).state = state ∧ (handle_state json state r).calls = [] := by
  have hv : validate state postedState.validateOrder ≠ none := by
    intro h
    obtain ⟨k, hk, hcase⟩ := hbad
    obtain ⟨e, he, hw⟩ := (validate_eq_none_iff state _).1 h k hk
    rcases hcase with h0 | ⟨e1, he1, hw1⟩
    · rw [h0] at he
      cases he
    · rw [he1] at he
      cases he
      rw [hw1] at hw
      cases hw
  simp only [handle_state, hmethod, post_ne_get, if_false, if_true, hdecode]
  cases hval : validate state postedState.validateOrder with
  | none => exact absurd hval hv
  | some rep => exact ⟨rfl, rfl⟩

/-- Witness for C1: `msg` is valid and visited first, `door` is read-only. -/
theorem handle_state_post_atomic_witness :
    (∃ k ∈ mapKeys exMixedBatch.validateOrder,
      mapIndex exState k = none ∨ ∃ e, mapIndex exState k = some e ∧ e.Writable = false) ∧
    (handle_state (exJSON exMixedBatch) exState exPost).state = exState ∧
    (handle_state (exJSON exMixedBatch) exState exPost).calls = [] :=
  have hbad : ∃ k ∈ mapKeys exMixedBatch.validateOrder,
      mapIndex exState k = none ∨ ∃ e, mapIndex exState k = some e ∧ e.Writable = false :=
    ⟨lit "door", by decide, Or.inr ⟨⟨lit "locked", false, none⟩, by decide, rfl⟩⟩
  ⟨hbad, handle_state_post_atomic (exJSON exMixedBatch) exState exPost exMixedBatch
    (by decide) rfl hbad⟩

/-- C2: whatever the request, `handle_state` leaves the entry of a read-only key
as it was; the value of such a key changes only through the registration
operations. -/
theorem handle_state_keeps_read_only {V : Type} [Inhabited V] (json : JSON V)
    (state : GoMap (stateEntry V)) (r : Request) (k : GoString) (e : stateEntry V)
    (hk : mapIndex state k = some e) (hro : e.Writable = false) :
    mapIndex (handle_state json state r).state k = some e := by
  unfold handle_state
  split
  · split
    · exact hk
    · simp only
      split <;> exact hk
  · split
    · split
      · exact hk
      · rename_i postedState hdec
        cases hval : validate state postedState.validateOrder with
        | some rep => exact hk
        | none =>
          simp only
          have hall := (validate_eq_none_iff state _).1 hval
          have hnot : k ∉ mapKeys postedState.commitOrder := by
            intro hin
            have hin1 : k ∈ mapKeys postedState.validateOrder :=
              ((postedState.same.map Prod.fst).mem_iff).1 hin
            obtain ⟨e1, he1, hw1⟩ := hall k hin1
            rw [hk] at he1
            cases he1
            rw [hro] at hw1
            cases hw1
          rw [commit_frame _ _ _ hnot]
          exact hk
    · exact hk

/-- Witness for C2: the read-only `door` survives a POST that names it. -/
theorem handle_state_keeps_read_only_witness :
    mapIndex exState (lit "door") = some ⟨lit "locked", false, none⟩ ∧
    mapIndex (handle_state (exJSON exMixedBatch) exState exPost).state (lit "door")
      = some ⟨lit "locked", false, none⟩ :=
  ⟨by decide, handle_state_keeps_read_only (exJSON exMixedBatch) exState exPost (lit "door")
    ⟨lit "locked", false, none⟩ (by decide) rfl⟩

/-! ## Bulk write: success -/

theorem handle_state_post_valid {V : Type} [Inhabited V] (json : JSON V)
    (state : GoMap (stateEntry V)) (r : Request) (postedState : PostedState V)
    (hmethod : r.Method = lit "POST")
    (hdecode : json.Unmarshal r.Body = Except.ok postedState)
    (hvalid : ∀ k ∈ mapKeys postedState.validateOrder,
      ∃ e, mapIndex state k = some e ∧ e.Writable = true) :
    handle_state json state r = commit state postedState.commitOrder := by
  have hval := (validate_eq_none_iff state _).2 hvalid
  simp only [handle_state, hmethod, post_ne_get, if_false, if_true, hdecode, hval]

theorem commitOrder_keys_perm {V : Type} (postedState : PostedState V) :
    (mapKeys postedState.commitOrder).Perm (mapKeys postedState.validateOrder) :=
  postedState.same.map Prod.fst

theorem commitOrder_keys_nodup {V : Type} (postedState : PostedState V) :
    (mapKeys postedState.commitOrder).Nodup :=
  (commitOrder_keys_perm postedState).nodup_iff.2 postedState.distinct

/-- The registry after a batch whose keys are all present with a callback has
been committed, described key by key. -/
theorem commit_state_spec {V : Type} [Inhabited V] (state : GoMap (stateEntry V))
    (postedState : PostedState V)
    (hcb : ∀ k ∈ mapKeys postedState.validateOrder,
      ∃ e cb, mapIndex state k = some e ∧ e.ModifiedCallback = some cb) :
    (commit state postedState.commitOrder).reply
        = Reply.http 200 (lit "State modified successfully.") ∧
    mapKeys (commit state postedState.commitOrder).state = mapKeys state ∧
    (∀ kv ∈ postedState.validateOrder, ∃ e, mapIndex state kv.1 = some e ∧
      mapIndex (commit state postedState.commitOrder).state kv.1
        = some { e with Value := kv.2 }) ∧
    (∀ q, q ∉ mapKeys postedState.validateOrder →
      mapIndex (commit state postedState.commitOrder).state q = mapIndex state q) := by
  have hcb1 : ∀ k ∈ mapKeys postedState.commitOrder,
      ∃ e cb, mapIndex state k = some e ∧ e.ModifiedCallback = some cb :=
    fun k hk => hcb k ((commitOrder_keys_perm postedState).mem_iff.1 hk)
  obtain ⟨h1, _, h3, h4⟩ :=
    commit_ok postedState.commitOrder state (commitOrder_keys_nodup postedState) hcb1
  refine ⟨h1, h3, ?_, ?_⟩
  · intro kv hkv
    obtain ⟨e, cb, he, _⟩ := hcb kv.1 (List.mem_map_of_mem Prod.fst hkv)
    exact ⟨e, he, h4 kv (postedState.same.mem_iff.2 hkv) e he⟩
  · intro q hq
    exact commit_frame _ _ _ (fun h => hq ((commitOrder_keys_perm postedState).mem_iff.1 h))

/-- C3, amended: a POST whose batch keys are all present, writable and equipped
with a callback replies 200 "State modified successfully."; afterwards each
batch key holds the posted value with its flag and callback as before, every
other key is untouched, the key set is the same, and the registry obtained does
not depend on the order in which the batch is visited. -/
theorem handle_state_post_success {V : Type} [Inhabited V] (json : JSON V)
    (state : GoMap (stateEntry V)) (r : Request) (postedState : PostedState V)
    (hmethod : r.Method = lit "POST")
    (hdecode : json.Unmarshal r.Body = Except.ok postedState)
    (hvalid : ∀ k ∈ mapKeys postedState.validateOrder,
      ∃ e cb, mapIndex state k = some e ∧ e.Writable = true ∧ e.ModifiedCallback = some cb) :
    (handle_state json state r).reply = Reply.http 200 (lit "State modified successfully.") ∧
    mapKeys (handle_state json state r).state = mapKeys state ∧
    (∀ kv ∈ postedState.validateOrder, ∃ e, mapIndex state kv.1 = some e ∧
      mapIndex (handle_state json state r).state kv.1 = some { e with Value := kv.2 }) ∧
    (∀ q, q ∉ mapKeys postedState.validateOrder →
      mapIndex (handle_state json state r).state q = mapIndex state q) ∧
    (∀ (json2 : JSON V) (postedState2 : PostedState V),
      json2.Unmarshal r.Body = Except.ok postedState2 →
      postedState2.validateOrder.Perm postedState.validateOrder →
        mapKeys (handle_state json2 state r).state = mapKeys (handle_state json state r).state ∧
        ∀ q, mapIndex (handle_state json2 state r).state q
              = mapIndex (handle_state json state r).state q) := by
  have hw : ∀ k ∈ mapKeys postedState.validateOrder,
      ∃ e, mapIndex state k = some e ∧ e.Writable = true := by
    intro k hk
    obtain ⟨e, _, he, hwr, _⟩ := hvalid k hk
    exact ⟨e, he, hwr⟩
  have hcb : ∀ k ∈ mapKeys postedState.validateOrder,
      ∃ e cb, mapIndex state k = some e ∧ e.ModifiedCallback = some cb := by
    intro k hk
    obtain ⟨e, cb, he, _, hc⟩ := hvalid k hk
    exact ⟨e, cb, he, hc⟩
  rw [handle_state_post_valid json state r postedState hmethod hdecode hw]
  obtain ⟨h1, h2, h3, h4⟩ := commit_state_spec state postedState hcb
  refine ⟨h1, h2, h3, h4, ?_⟩
  intro json2 postedState2 hdecode2 hperm
  have hmem : ∀ k, k ∈ mapKeys postedState2.validateOrder ↔
      k ∈ mapKeys postedState.validateOrder := fun k => (hperm.map Prod.fst).mem_iff
  have hw2 : ∀ k ∈ mapKeys postedState2.validateOrder,
      ∃ e, mapIndex state k = some e ∧ e.Writable = true :=
    fun k hk => hw k ((hmem k).1 hk)
  have hcb2 : ∀ k ∈ mapKeys postedState2.validateOrder,
      ∃ e cb, mapIndex state k = some e ∧ e.ModifiedCallback = some cb :=
    fun k hk => hcb k ((hmem k).1 hk)
  rw [handle_state_post_valid json2 state r postedState2 hmethod hdecode2 hw2]
  obtain ⟨_, g2, g3, g4⟩ := commit_state_spec state postedState2 hcb2
  refine ⟨g2.trans h2.symm, ?_⟩
  intro q
  by_cases hq : q ∈ mapKeys postedState.validateOrder
  · obtain ⟨kv, hkv, hfst⟩ := List.mem_map.1 hq
    obtain ⟨e, he, hres⟩ := h3 kv hkv
    obtain ⟨e2, he2, hres2⟩ := g3 kv (hperm.mem_iff.2 hkv)
    rw [he] at he2
    cases he2
    rw [← hfst, hres, hres2]
  · rw [h4 q hq, g4 q (fun h => hq ((hmem q).1 h))]

/-- Witness for C3: posting "hello" to the writable `msg`. -/
theorem handle_state_post_success_witness :
    (∀ k ∈ mapKeys exMsgBatch.validateOrder,
      ∃ e cb, mapIndex exState k = some e ∧ e.Writable = true ∧ e.ModifiedCallback = some cb) ∧
    (handle_state (exJSON exMsgBatch) exState exPost).reply
      = Reply.http 200 (lit "State modified successfully.") :=
  have hvalid : ∀ k ∈ mapKeys exMsgBatch.validateOrder,
      ∃ e cb, mapIndex exState k = some e ∧ e.Writable = true ∧ e.ModifiedCallback = some cb := by
    intro k hk
    have hk1 : k = lit "msg" := by simpa [mapKeys, exMsgBatch] using hk
    subst hk1
    exact ⟨⟨lit "", true, some 1⟩, 1, by decide, rfl, rfl⟩
  ⟨hvalid, (handle_state_post_success (exJSON exMsgBatch) exState exPost exMsgBatch
    (by decide) rfl hvalid).1⟩

/-- Counterexample to C3 as stated: both keys of the batch are present and
writable, yet the request ends in a panic instead of a 200 reply, and the batch
key `b` still holds its old value. -/
theorem handle_state_post_success_counterexample :
    (∀ k ∈ mapKeys exNilBatch.validateOrder,
      ∃ e, mapIndex exNilState k = some e ∧ e.Writable = true) ∧
    (handle_state (exJSON exNilBatch) exNilState exPost).reply = Reply.panicked ∧
    mapIndex (handle_state (exJSON exNilBatch) exNilState exPost).state (lit "b")
      = some ⟨lit "old", true, some 1⟩ := by
  refine ⟨?_, by decide, by decide⟩
  intro k hk
  have hk1 : k = lit "a" ∨ k = lit "b" := by simpa [mapKeys, exNilBatch] using hk
  rcases hk1 with h | h
  · subst h
    exact ⟨⟨lit "old", true, none⟩, by decide, rfl⟩
  · subst h
    exact ⟨⟨lit "old", true, some 1⟩, by decide, rfl⟩

/-! ## Bulk write: callbacks -/

theorem invocationFor_eq_some {V : Type} (state : GoMap (stateEntry V)) (kv : GoString × V)
    (c : Invocation V) (h : invocationFor state kv = some c) :
    ∃ e, mapIndex state kv.1 = some e ∧ e.ModifiedCallback = some c.callback ∧
      c.key = kv.1 ∧ c.oldValue = e.Value ∧ c.newValue = kv.2 := by
  unfold invocationFor at h
  cases he : mapIndex state kv.1 with
  | none => simp [he] at h
  | some e =>
    cases hc : e.ModifiedCallback with
    | none => simp [he, hc] at h
    | some cb =>
      simp only [he, hc, Option.some.injEq] at h
      subst h
      exact ⟨e, rfl, hc, rfl, rfl, rfl⟩

theorem keys_of_invocations {V : Type} (state : GoMap (stateEntry V)) (l : GoMap V)
    (calls : List (Invocation V)) (h : calls.map some = l.map (invocationFor state)) :
    calls.map Invocation.key = mapKeys l := by
  induction l generalizing calls with
  | nil =>
    cases calls with
    | nil => rfl
    | cons c cs => simp at h
  | cons kv rest ih =>
    cases calls with
    | nil => simp at h
    | cons c cs =>
      simp only [List.map_cons, List.cons.injEq] at h
      obtain ⟨_, _, _, hkey, _, _⟩ := invocationFor_eq_some state kv c h.1.symm
      have := ih cs h.2
      simp only [mapKeys] at this
      simp [mapKeys, hkey, this]

/-- C4: a POST whose batch keys are all present and writable with a callback
makes exactly the invocations owed to the posted pairs, one per batch key and in
the order of the commit loop: the key's own callback, applied to the key, the
value the key held before the request, and the value posted for it. The empty
batch makes none. -/
theorem handle_state_post_callbacks {V : Type} [Inhabited V] (json : JSON V)
    (state : GoMap (stateEntry V)) (r : Request) (postedState : PostedState V)
    (hmethod : r.Method = lit "POST")
    (hdecode : json.Unmarshal r.Body = Except.ok postedState)
    (hvalid : ∀ k ∈ mapKeys postedState.validateOrder,
      ∃ e cb, mapIndex state k = some e ∧ e.Writable = true ∧ e.ModifiedCallback = some cb) :
    (handle_state json state r).calls.map some
      = postedState.commitOrder.map (invocationFor state) ∧
    ((handle_state json state r).calls.map Invocation.key).Perm
      (mapKeys postedState.validateOrder) ∧
    ((handle_state json state r).calls.map Invocation.key).Nodup ∧
    (∀ c ∈ (handle_state json state r).calls, ∃ e,
      mapIndex state c.key = some e ∧ e.ModifiedCallback = some c.callback ∧
      c.oldValue = e.Value ∧ (c.key, c.newValue) ∈ postedState.validateOrder) ∧
    (postedState.validateOrder = [] → (handle_state json state r).calls = []) := by
  have hw : ∀ k ∈ mapKeys postedState.validateOrder,
      ∃ e, mapIndex state k = some e ∧ e.Writable = true := by
    intro k hk
    obtain ⟨e, _, he, hwr, _⟩ := hvalid k hk
    exact ⟨e, he, hwr⟩
  have hcb : ∀ k ∈ mapKeys postedState.commitOrder,
      ∃ e cb, mapIndex state k = some e ∧ e.ModifiedCallback = some cb := by
    intro k hk
    obtain ⟨e, cb, he, _, hc⟩ := hvalid k ((commitOrder_keys_perm postedState).mem_iff.1 hk)
    exact ⟨e, cb, he, hc⟩
  rw [handle_state_post_valid json state r postedState hmethod hdecode hw]
  obtain ⟨_, h2, _, _⟩ :=
    commit_ok postedState.commitOrder state (commitOrder_keys_nodup postedState) hcb
  have hkeys := keys_of_invocations state _ _ h2
  refine ⟨h2, ?_, ?_, ?_, ?_⟩
  · rw [hkeys]
    exact commitOrder_keys_perm postedState
  · rw [hkeys]
    exact commitOrder_keys_nodup postedState
  · intro c hc
    have hsome : some c ∈ (commit state postedState.commitOrder).calls.map some :=
      List.mem_map_of_mem some hc
    rw [h2] at hsome
    obtain ⟨kv, hkv, hinv⟩ := List.mem_map.1 hsome
    obtain ⟨e, he, hcall, hkey, hold, hnew⟩ := invocationFor_eq_some state kv c hinv
    refine ⟨e, by rw [hkey]; exact he, hcall, hold, ?_⟩
    rw [hkey, hnew]
    exact postedState.same.mem_iff.1 hkv
  · intro hempty
    have hc : postedState.commitOrder = [] := by
      have := postedState.same
      rw [hempty] at this
      exact List.Perm.eq_nil this
    rw [hc]
    rfl

/-- Witness for C4: posting "hello" to `msg` calls function 1 on ("msg", "", "hello"). -/
theorem handle_state_post_callbacks_witness :
    (∀ k ∈ mapKeys exMsgBatch.validateOrder,
      ∃ e cb, mapIndex exState k = some e ∧ e.Writable = true ∧ e.ModifiedCallback = some cb) ∧
    (handle_state (exJSON exMsgBatch) exState exPost).calls.map some
      = [some ⟨1, lit "msg", lit "", lit "hello"⟩] :=
  have hvalid : ∀ k ∈ mapKeys exMsgBatch.validateOrder,
      ∃ e cb, mapIndex exState k = some e ∧ e.Writable = true ∧ e.ModifiedCallback = some cb := by
    intro k hk
    have hk1 : k = lit "msg" := by simpa [mapKeys, exMsgBatch] using hk
    subst hk1
    exact ⟨⟨lit "", true, some 1⟩, 1, by decide, rfl, rfl⟩
  ⟨hvalid, (handle_state_post_callbacks (exJSON exMsgBatch) exState exPost exMsgBatch
    (by decide) rfl hvalid).1⟩

/-! ## Write isolation by writability -/

/-- C5: after `SetState(x, v)` a POST of the batch that maps `x` to `newV` is
refused with 403 and the text naming `x`, and `x` still holds `v`; after
`SetWritableState(x, v, cb)` the same POST replies 200, `x` holds `newV`, and
the only invocation is `cb` on `(x, v, newV)`. -/
theorem write_isolation {V : Type} [Inhabited V] (json : JSON V)
    (state : GoMap (stateEntry V)) (r : Request) (postedState : PostedState V)
    (x : GoString) (v newV : V) (cb : StateModifiedCallback)
    (hmethod : r.Method = lit "POST")
    (hdecode : json.Unmarshal r.Body = Except.ok postedState)
    (hbatch : postedState.validateOrder = [(x, newV)]) :
    ((handle_state json (SetState state x v) r).reply = Reply.http 403 (notWritableText x) ∧
     (handle_state json (SetState state x v) r).calls = [] ∧
     (handle_state json (SetState state x v) r).state = SetState state x v ∧
     mapIndex (handle_state json (SetState state x v) r).state x = some ⟨v, false, none⟩) ∧
    ((handle_state json (SetWritableState state x v (some cb)) r).reply
        = Reply.http 200 (lit "State modified successfully.") ∧
     mapIndex (handle_state json (SetWritableState state x v (some cb)) r).state x
        = some ⟨newV, true, some cb⟩ ∧
     (handle_state json (SetWritableState state x v (some cb)) r).calls
        = [⟨cb, x, v, newV⟩]) := by
  have hcommit : postedState.commitOrder = [(x, newV)] := by
    have := postedState.same
    rw [hbatch] at this
    exact List.perm_singleton.1 this
  constructor
  · have hro : mapIndex (SetState state x v) x = some ⟨v, false, none⟩ :=
      mapIndex_mapAssign_self _ _ _
    simp [handle_state, hmethod, post_ne_get, hdecode, hbatch, validate, hro]
  · have hrw : mapIndex (SetWritableState state x v (some cb)) x = some ⟨v, true, some cb⟩ :=
      mapIndex_mapAssign_self _ _ _
    simp [handle_state, hmethod, post_ne_get, hdecode, hbatch, hcommit, validate, commit, hrw,
      mapIndex_mapAssign_self]

/-- Witness for C5: `door` read-only = "locked" refuses "open" with 403; `msg`
writable = "" accepts "hello" and calls back with ("msg", "", "hello"). -/
theorem write_isolation_witness :
    (handle_state (exJSON exDoorBatch) (SetState exState (lit "door") (lit "locked")) exPost).reply
      = Reply.http 403 (notWritableText (lit "door")) ∧
    (handle_state (exJSON exMsgBatch) (SetWritableState exState (lit "msg") (lit "") (some 1))
        exPost).reply = Reply.http 200 (lit "State modified successfully.") ∧
    (handle_state (exJSON exMsgBatch) (SetWritableState exState (lit "msg") (lit "") (some 1))
        exPost).calls = [⟨1, lit "msg", lit "", lit "hello"⟩] :=
  ⟨(write_isolation (exJSON exDoorBatch) exState exPost exDoorBatch (lit "door") (lit "locked")
      (lit "open") 1 (by decide) rfl rfl).1.1,
   (write_isolation (exJSON exMsgBatch) exState exPost exMsgBatch (lit "msg") (lit "")
      (lit "hello") 1 (by decide) rfl rfl).2.1,
   (write_isolation (exJSON exMsgBatch) exState exPost exMsgBatch (lit "msg") (lit "")
      (lit "hello") 1 (by decide) rfl rfl).2.2.2⟩

/-! ## The read filter -/

theorem strings_HasPrefix_nil (s : GoString) : strings_HasPrefix s [] = true := by
  simp [strings_HasPrefix]

theorem filter_test_redundant (key filter : GoString) :
    (decide (filter = []) || strings_HasPrefix key filter) = strings_HasPrefix key filter := by
  by_cases h : filter = []
  · subst h
    simp [strings_HasPrefix_nil]
  · simp [h]

theorem foldl_filter_index {V : Type} (state : GoMap (stateEntry V)) (filter : GoString)
    (acc : GoMap V) (k : GoString) (hn : (mapKeys state).Nodup) :
    mapIndex (state.foldl
      (fun filteredState ke =>
        if strings_HasPrefix ke.1 filter = true then
          mapAssign filteredState ke.1 ke.2.Value
        else filteredState) acc) k
      = match mapIndex state k with
        | some e => if strings_HasPrefix k filter then some e.Value else mapIndex acc k
        | none => mapIndex acc k := by
  induction state generalizing acc with
  | nil => simp [mapIndex]
  | cons p rest ih =>
    obtain ⟨k1, e1⟩ := p
    simp only [mapKeys, List.map_cons, List.nodup_cons] at hn
    simp only [List.foldl_cons]
    rw [ih _ hn.2]
    by_cases hk : k1 = k
    · subst hk
      have hnone : mapIndex rest k1 = none := (mapIndex_eq_none_iff rest k1).2 hn.1
      simp only [hnone, mapIndex, if_true]
      by_cases hp : strings_HasPrefix k1 filter = true
      · simp [hp, mapIndex_mapAssign_self]
      · simp [hp]
    · simp only [mapIndex, hk, if_false]
      have hacc : mapIndex (if strings_HasPrefix k1 filter = true then
          mapAssign acc k1 e1.Value else acc) k = mapIndex acc k := by
        split
        · exact mapIndex_mapAssign_ne _ _ _ _ hk
        · rfl
      rw [hacc]

theorem filterState_index {V : Type} (state : GoMap (stateEntry V)) (filter k : GoString)
    (hn : (mapKeys state).Nodup) :
    mapIndex (filterState state filter) k
      = match mapIndex state k with
        | some e => if strings_HasPrefix k filter then some e.Value else none
        | none => none := by
  simp only [filterState, filter_test_redundant]
  rw [foldl_filter_index state filter [] k hn]
  simp [mapIndex]

/-- C6: for a registry with distinct keys and a GET request whose path is
"/_/state/" followed by `p`, the map handed to the JSON encoder binds `k` iff `k`
is a registry key that starts with `p`, and binds it to the entry's value; with
`p` empty it binds every registry key; and the test `filter == ""` changes
nothing next to `strings.HasPrefix`. -/
theorem filterState_correct {V : Type} [Inhabited V] (json : JSON V)
    (state : GoMap (stateEntry V)) (r : Request) (p : GoString)
    (hn : (mapKeys state).Nodup)
    (hmethod : r.Method = lit "GET") (hpath : r.Path = lit "/_/state/" ++ p) :
    (handle_state json state r).reply
      = (match json.MarshalIndent (filterState state p) with
         | Except.error _ => Reply.fatal
         | Except.ok bytes => Reply.http 200 bytes) ∧
    (∀ k, mapIndex (filterState state p) k
      = match mapIndex state k with
        | some e => if strings_HasPrefix k p then some e.Value else none
        | none => none) ∧
    (∀ k, k ∈ mapKeys (filterState state p) ↔
      k ∈ mapKeys state ∧ strings_HasPrefix k p = true) ∧
    (∀ k, k ∈ mapKeys (filterState state []) ↔ k ∈ mapKeys state) ∧
    (∀ key filter : GoString,
      (decide (filter = []) || strings_HasPrefix key filter) = strings_HasPrefix key filter) := by
  have hmem : ∀ q k, k ∈ mapKeys (filterState state q) ↔
      k ∈ mapKeys state ∧ strings_HasPrefix k q = true := by
    intro q k
    rw [← not_iff_not, ← mapIndex_eq_none_iff, filterState_index state q k hn]
    cases he : mapIndex state k with
    | none =>
      have := (mapIndex_eq_none_iff state k).1 he
      simp [this]
    | some e =>
      have : k ∈ mapKeys state := by
        by_contra hc
        rw [(mapIndex_eq_none_iff state k).2 hc] at he
        cases he
      by_cases hp : strings_HasPrefix k q = true
      · simp [hp, this]
      · simp [hp]
  refine ⟨?_, fun k => filterState_index state p k hn, hmem p, ?_, filter_test_redundant⟩
  · have hlen : ¬ (lit "/_/state/" ++ p).length < 9 := by
      have : (lit "/_/state/").length = 9 := by decide
      simp [List.length_append, this]
    have hdrop : List.drop 9 (lit "/_/state/" ++ p) = p := by
      have : (lit "/_/state/").length = 9 := by decide
      rw [← this, List.drop_left]
    simp only [handle_state, hmethod, if_true, hpath, hlen, if_false, hdrop]
    cases json.MarshalIndent (filterState state p) <;> rfl
  · intro k
    rw [hmem [] k]
    simp [strings_HasPrefix_nil]

/-- Witness for C6: filtering the door / message registry by "m" keeps `msg` only. -/
theorem filterState_correct_witness :
    (mapKeys exState).Nodup ∧
    (∀ k, k ∈ mapKeys (filterState exState (lit "m")) ↔
      k ∈ mapKeys exState ∧ strings_HasPrefix k (lit "m") = true) ∧
    filterState exState (lit "m") = [(lit "msg", lit "")] :=
  ⟨by decide,
   (filterState_correct (exJSON exMsgBatch) exState exGet (lit "m") (by decide) (by decide)
      (by decide)).2.2.1,
   by decide⟩

/-! ## Outcome of a well-formed POST -/

theorem handle_state_post_invalid {V : Type} [Inhabited V] (json : JSON V)
    (state : GoMap (stateEntry V)) (r : Request) (postedState : PostedState V) (rep : Reply)
    (hmethod : r.Method = lit "POST")
    (hdecode : json.Unmarshal r.Body = Except.ok postedState)
    (hval : validate state postedState.validateOrder = some rep) :
    handle_state json state r = { state := state, calls := [], reply := rep } := by
  simp only [handle_state, hmethod, post_ne_get, if_false, if_true, hdecode, hval]

theorem mem_keys_middle {V : Type} (pre post : GoMap V) (k : GoString) (v : V) :
    k ∈ mapKeys (pre ++ (k, v) :: post) := by
  simp [mapKeys]

/-- C7, amended: for a decoded batch whose writable keys all carry a callback,
`handle_state` replies 200 iff every batch key is present and writable and
replies 404 or 403 otherwise; a 404 names, in the text "The key ... was not
found.", a batch key absent from the registry, and a 403 names, in "The key ...
is not writable.", a batch key present with `Writable == false`. -/
theorem handle_state_post_outcome {V : Type} [Inhabited V] (json : JSON V)
    (state : GoMap (stateEntry V)) (r : Request) (postedState : PostedState V)
    (hmethod : r.Method = lit "POST")
    (hdecode : json.Unmarshal r.Body = Except.ok postedState)
    (hcb : ∀ k ∈ mapKeys postedState.validateOrder, ∀ e, mapIndex state k = some e →
      e.Writable = true → ∃ cb, e.ModifiedCallback = some cb) :
    ((∃ body, (handle_state json state r).reply = Reply.http 200 body) ↔
      ∀ k ∈ mapKeys postedState.validateOrder,
        ∃ e, mapIndex state k = some e ∧ e.Writable = true) ∧
    ((¬ ∀ k ∈ mapKeys postedState.validateOrder,
        ∃ e, mapIndex state k = some e ∧ e.Writable = true) →
      ∃ body, (handle_state json state r).reply = Reply.http 404 body ∨
        (handle_state json state r).reply = Reply.http 403 body) ∧
    (∀ body, (handle_state json state r).reply = Reply.http 404 body →
      ∃ k ∈ mapKeys postedState.validateOrder,
        mapIndex state k = none ∧ body = notFoundText k) ∧
    (∀ body, (handle_state json state r).reply = Reply.http 403 body →
      ∃ k ∈ mapKeys postedState.validateOrder, ∃ e,
        mapIndex state k = some e ∧ e.Writable = false ∧ body = notWritableText k) := by
  cases hval : validate state postedState.validateOrder with
  | none =>
    have hall := (validate_eq_none_iff state _).1 hval
    have hcb1 : ∀ k ∈ mapKeys postedState.validateOrder,
        ∃ e cb, mapIndex state k = some e ∧ e.ModifiedCallback = some cb := by
      intro k hk
      obtain ⟨e, he, hw⟩ := hall k hk
      obtain ⟨cb, hc⟩ := hcb k hk e he hw
      exact ⟨e, cb, he, hc⟩
    rw [handle_state_post_valid json state r postedState hmethod hdecode hall]
    obtain ⟨h200, _, _, _⟩ := commit_state_spec state postedState hcb1
    rw [h200]
    refine ⟨⟨fun _ => hall, fun _ => ⟨_, rfl⟩⟩, fun hnot => absurd hall hnot, ?_, ?_⟩
    · intro body hb
      simp at hb
    · intro body hb
      simp at hb
  | some rep =>
    have hnot : ¬ ∀ k ∈ mapKeys postedState.validateOrder,
        ∃ e, mapIndex state k = some e ∧ e.Writable = true := by
      intro hall
      rw [(validate_eq_none_iff state _).2 hall] at hval
      cases hval
    rw [handle_state_post_invalid json state r postedState rep hmethod hdecode hval]
    obtain ⟨pre, k, v, post, hl, _, hcase⟩ := validate_eq_some state _ rep hval
    have hk : k ∈ mapKeys postedState.validateOrder := by
      rw [hl]
      exact mem_keys_middle pre post k v
    rcases hcase with ⟨habs, hrep⟩ | ⟨e, he, hw, hrep⟩
    · subst hrep
      refine ⟨⟨?_, fun hall => absurd hall hnot⟩, fun _ => ⟨_, Or.inl rfl⟩, ?_, ?_⟩
      · rintro ⟨body, hb⟩
        simp at hb
      · intro body hb
        simp only [Reply.http.injEq, true_and] at hb
        exact ⟨k, hk, habs, hb.symm⟩
      · intro body hb
        simp at hb
    · subst hrep
      refine ⟨⟨?_, fun hall => absurd hall hnot⟩, fun _ => ⟨_, Or.inr rfl⟩, ?_, ?_⟩
      · rintro ⟨body, hb⟩
        simp at hb
      · intro body hb
        simp at hb
      · intro body hb
        simp only [Reply.http.injEq, true_and] at hb
        exact ⟨k, hk, e, he, hw, hb.symm⟩

/-- Witness for C7: the batch on `msg` and `door` is answered 403, naming `door`. -/
theorem handle_state_post_outcome_witness :
    (∀ k ∈ mapKeys exMixedBatch.validateOrder, ∀ e, mapIndex exState k = some e →
      e.Writable = true → ∃ cb, e.ModifiedCallback = some cb) ∧
    (handle_state (exJSON exMixedBatch) exState exPost).reply
      = Reply.http 403 (notWritableText (lit "door")) ∧
    ∃ k ∈ mapKeys exMixedBatch.validateOrder, ∃ e,
      mapIndex exState k = some e ∧ e.Writable = false ∧
        notWritableText (lit "door") = notWritableText k :=
  have hcb : ∀ k ∈ mapKeys exMixedBatch.validateOrder, ∀ e, mapIndex exState k = some e →
      e.Writable = true → ∃ cb, e.ModifiedCallback = some cb := by
    intro k hk e he hw
    have hk1 : k = lit "msg" ∨ k = lit "door" := by simpa [mapKeys, exMixedBatch] using hk
    rcases hk1 with h | h
    · subst h
      have h1 : mapIndex exState (lit "msg") = some ⟨lit "", true, some 1⟩ := by decide
      rw [h1] at he
      cases he
      exact ⟨1, rfl⟩
    · subst h
      have h1 : mapIndex exState (lit "door") = some ⟨lit "locked", false, none⟩ := by decide
      rw [h1] at he
      cases he
      cases hw
  ⟨hcb, by decide,
    (handle_state_post_outcome (exJSON exMixedBatch) exState exPost exMixedBatch (by decide) rfl
      hcb).2.2.2 _ (by decide)⟩

/-- Counterexample to C7 as stated: the only batch key `msg` is present and
writable, yet the reply is not a 200: the handler panics on the nil callback. -/
theorem handle_state_post_outcome_counterexample :
    (∀ k ∈ mapKeys exMsgBatch.validateOrder,
      ∃ e, mapIndex exSilentState k = some e ∧ e.Writable = true) ∧
    (handle_state (exJSON exMsgBatch) exSilentState exPost).reply = Reply.panicked ∧
    ¬ ∃ body, (handle_state (exJSON exMsgBatch) exSilentState exPost).reply
      = Reply.http 200 body := by
  have hrep : (handle_state (exJSON exMsgBatch) exSilentState exPost).reply = Reply.panicked := by
    decide
  refine ⟨?_, hrep, ?_⟩
  · intro k hk
    have hk1 : k = lit "msg" := by simpa [mapKeys, exMsgBatch] using hk
    subst hk1
    exact ⟨⟨lit "", true, none⟩, by decide, rfl⟩
  · rintro ⟨body, hb⟩
    rw [hrep] at hb
    cases hb

/-! ## A batch that names an unregistered key -/

/-- C8, amended: a POST whose batch names at least one key absent from the
registry fails as a whole, with no change to the registry and no callback. The
reply is 404 naming an absent batch key or 403 naming a read-only batch key,
whichever invalid key the first loop meets first: it is the 404 of the absent
key `k` when every key visited before `k` is present and writable, and it is a
404 in any order when the batch holds no read-only key. -/
theorem handle_state_post_absent_key {V : Type} [Inhabited V] (json : JSON V)
    (state : GoMap (stateEntry V)) (r : Request) (postedState : PostedState V)
    (hmethod : r.Method = lit "POST")
    (hdecode : json.Unmarshal r.Body = Except.ok postedState)
    (habsent : ∃ k ∈ mapKeys postedState.validateOrder, mapIndex state k = none) :
    (handle_state json state r).state = state ∧
    (handle_state json state r).calls = [] ∧
    ((∃ k ∈ mapKeys postedState.validateOrder, mapIndex state k = none ∧
        (handle_state json state r).reply = Reply.http 404 (notFoundText k)) ∨
     (∃ k ∈ mapKeys postedState.validateOrder, ∃ e, mapIndex state k = some e ∧
        e.Writable = false ∧
        (handle_state json state r).reply = Reply.http 403 (notWritableText k))) ∧
    (∀ pre k v post, postedState.validateOrder = pre ++ (k, v) :: post →
      mapIndex state k = none →
      (∀ q ∈ mapKeys pre, ∃ e, mapIndex state q = some e ∧ e.Writable = true) →
      (handle_state json state r).reply = Reply.http 404 (notFoundText k)) ∧
    ((∀ k ∈ mapKeys postedState.validateOrder, ∀ e, mapIndex state k = some e →
        e.Writable = true) →
      ∃ k ∈ mapKeys postedState.validateOrder, mapIndex state k = none ∧
        (handle_state json state r).reply = Reply.http 404 (notFoundText k)) := by
  have hcases : ∃ rep, validate state postedState.validateOrder = some rep := by
    cases hval : validate state postedState.validateOrder with
    | some rep => exact ⟨rep, rfl⟩
    | none =>
      obtain ⟨k, hk, hnone⟩ := habsent
      obtain ⟨e, he, _⟩ := (validate_eq_none_iff state _).1 hval k hk
      rw [hnone] at he
      cases he
  obtain ⟨rep, hval⟩ := hcases
  rw [handle_state_post_invalid json state r postedState rep hmethod hdecode hval]
  obtain ⟨pre, k, v, post, hl, _, hcase⟩ := validate_eq_some state _ rep hval
  have hk : k ∈ mapKeys postedState.validateOrder := by
    rw [hl]
    exact mem_keys_middle pre post k v
  refine ⟨rfl, rfl, ?_, ?_, ?_⟩
  · rcases hcase with ⟨habs, hrep⟩ | ⟨e, he, hw, hrep⟩
    · exact Or.inl ⟨k, hk, habs, hrep⟩
    · exact Or.inr ⟨k, hk, e, he, hw, hrep⟩
  · intro pre2 k2 v2 post2 hl2 habs2 hpre2
    have h1 := validate_append_of_valid state pre2 ((k2, v2) :: post2) hpre2
    rw [← hl2, hval] at h1
    simp only [validate, habs2, Option.some.injEq] at h1
    exact h1
  · intro hnoro
    rcases hcase with ⟨habs, hrep⟩ | ⟨e, he, hw, hrep⟩
    · exact ⟨k, hk, habs, hrep⟩
    · rw [hnoro k hk e he] at hw
      cases hw

/-- Witness for C8: `msg` is valid and visited first, `ghost` is unregistered: 404 naming `ghost`. -/
theorem handle_state_post_absent_key_witness :
    (∃ k ∈ mapKeys exLostBatch.validateOrder, mapIndex exState k = none) ∧
    (handle_state (exJSON exLostBatch) exState exPost).reply
      = Reply.http 404 (notFoundText (lit "ghost")) :=
  have habsent : ∃ k ∈ mapKeys exLostBatch.validateOrder, mapIndex exState k = none :=
    ⟨lit "ghost", by decide, by decide⟩
  ⟨habsent,
    (handle_state_post_absent_key (exJSON exLostBatch) exState exPost exLostBatch (by decide) rfl
      habsent).2.2.2.1 [(lit "msg", lit "hello")] (lit "ghost") (lit "boo") [] rfl (by decide)
      (by
        intro q hq
        have hq1 : q = lit "msg" := by simpa [mapKeys] using hq
        subst hq1
        exact ⟨⟨lit "", true, some 1⟩, by decide, rfl⟩)⟩

/-- Counterexample to C8 as stated: the batch names the unregistered key `ghost`,
but the read-only `door` is visited first and the reply is 403, not 404. -/
theorem handle_state_post_absent_key_counterexample :
    (∃ k ∈ mapKeys exGhostBatch.validateOrder, mapIndex exState k = none) ∧
    (handle_state (exJSON exGhostBatch) exState exPost).reply
      = Reply.http 403 (notWritableText (lit "door")) :=
  ⟨⟨lit "ghost", by decide, by decide⟩, by decide⟩

/-! ## Registration -/

theorem mapKeys_mapAssign_nodup {α : Type} (m : GoMap α) (k : GoString) (v : α)
    (hn : (mapKeys m).Nodup) : (mapKeys (mapAssign m k v)).Nodup := by
  cases hk : mapIndex m k with
  | some w =>
    rw [mapKeys_mapAssign_of_present m k v w hk]
    exact hn
  | none =>
    rw [mapKeys_mapAssign_of_absent m k v hk]
    have hnot : k ∉ mapKeys m := (mapIndex_eq_none_iff m k).1 hk
    refine List.Nodup.append hn (List.nodup_singleton k) ?_
    intro a ha hb
    rw [List.mem_singleton] at hb
    subst hb
    exact hnot ha

/-- C9: `SetState(k, v)` leaves under `k` exactly the entry (v, read-only, no
callback) and `SetWritableState(k, v, cb)` exactly (v, writable, cb), whatever
`k` held before; both are total and leave every other key as it was; and in a
registry with distinct keys, a GET whose filter is a prefix of `k` then reports
`k` with value `v`. -/
theorem registration_replaces {V : Type} (state : GoMap (stateEntry V)) (k : GoString) (v : V)
    (cb : Option StateModifiedCallback) :
    mapIndex (SetState state k v) k = some ⟨v, false, none⟩ ∧
    mapIndex (SetWritableState state k v cb) k = some ⟨v, true, cb⟩ ∧
    (∀ q, q ≠ k → mapIndex (SetState state k v) q = mapIndex state q ∧
      mapIndex (SetWritableState state k v cb) q = mapIndex state q) ∧
    (∀ p, (mapKeys state).Nodup → strings_HasPrefix k p = true →
      mapIndex (filterState (SetState state k v) p) k = some v ∧
      mapIndex (filterState (SetWritableState state k v cb) p) k = some v) := by
  refine ⟨mapIndex_mapAssign_self _ _ _, mapIndex_mapAssign_self _ _ _, ?_, ?_⟩
  · intro q hq
    exact ⟨mapIndex_mapAssign_ne _ _ _ _ (Ne.symm hq), mapIndex_mapAssign_ne _ _ _ _ (Ne.symm hq)⟩
  · intro p hn hp
    constructor
    · unfold SetState
      rw [filterState_index _ p k (mapKeys_mapAssign_nodup state k _ hn)]
      simp only [mapIndex_mapAssign_self, hp, if_true]
    · unfold SetWritableState
      rw [filterState_index _ p k (mapKeys_mapAssign_nodup state k _ hn)]
      simp only [mapIndex_mapAssign_self, hp, if_true]

/-- Witness for C9: re-registering the writable `msg` with `SetState` drops its
flag and callback, and a GET filtered by "m" reports the new value. -/
theorem registration_replaces_witness :
    mapIndex exState (lit "msg") = some ⟨lit "", true, some 1⟩ ∧
    mapIndex (SetState exState (lit "msg") (lit "hi")) (lit "msg")
      = some ⟨lit "hi", false, none⟩ ∧
    (mapKeys exState).Nodup ∧ strings_HasPrefix (lit "msg") (lit "m") = true ∧
    mapIndex (filterState (SetState exState (lit "msg") (lit "hi")) (lit "m")) (lit "msg")
      = some (lit "hi") :=
  ⟨by decide,
   (registration_replaces exState (lit "msg") (lit "hi") none).1,
   by decide, by decide,
   ((registration_replaces exState (lit "msg") (lit "hi") none).2.2.2 (lit "m") (by decide)
      (by decide)).1⟩

/-! ## Base64 -/

theorem encodeMap_facts : ∀ s, s < 64 →
    decodeMap (encodeMap s) = s ∧ encodeMap s ≠ 61 ∧ inAuthClass (encodeMap s) = true := by
  decide

theorem decode_quantum (s0 s1 s2 s3 : Nat) (h0 : s0 < 64) (h1 : s1 < 64) (h2 : s2 < 64)
    (h3 : s3 < 64) (rest : GoString) :
    base64_DecodeString (encodeMap s0 :: encodeMap s1 :: encodeMap s2 :: encodeMap s3 :: rest)
      = match base64_DecodeString rest with
        | none => none
        | some tail => some ([s0 * 4 + s1 / 16, s1 % 16 * 16 + s2 / 4, s2 % 4 * 64 + s3] ++ tail) := by
  obtain ⟨d0, _, _⟩ := encodeMap_facts s0 h0
  obtain ⟨d1, _, _⟩ := encodeMap_facts s1 h1
  obtain ⟨d2, p2, _⟩ := encodeMap_facts s2 h2
  obtain ⟨d3, p3, _⟩ := encodeMap_facts s3 h3
  have n0 : s0 ≠ 255 := by omega
  have n1 : s1 ≠ 255 := by omega
  have n2 : s2 ≠ 255 := by omega
  have n3 : s3 ≠ 255 := by omega
  simp only [base64_DecodeString, d0, d1, d2, d3, n0, n1, n2, n3, p2, p3, or_self, and_false,
    if_false]

theorem decode_pad2 (s0 s1 : Nat) (h0 : s0 < 64) (h1 : s1 < 64) :
    base64_DecodeString [encodeMap s0, encodeMap s1, 61, 61] = some [s0 * 4 + s1 / 16] := by
  obtain ⟨d0, _, _⟩ := encodeMap_facts s0 h0
  obtain ⟨d1, _, _⟩ := encodeMap_facts s1 h1
  have n0 : s0 ≠ 255 := by omega
  have n1 : s1 ≠ 255 := by omega
  simp [base64_DecodeString, d0, d1, n0, n1]

theorem decode_pad1 (s0 s1 s2 : Nat) (h0 : s0 < 64) (h1 : s1 < 64) (h2 : s2 < 64) :
    base64_DecodeString [encodeMap s0, encodeMap s1, encodeMap s2, 61]
      = some [s0 * 4 + s1 / 16, s1 % 16 * 16 + s2 / 4] := by
  obtain ⟨d0, _, _⟩ := encodeMap_facts s0 h0
  obtain ⟨d1, _, _⟩ := encodeMap_facts s1 h1
  obtain ⟨d2, p2, _⟩ := encodeMap_facts s2 h2
  have n0 : s0 ≠ 255 := by omega
  have n1 : s1 ≠ 255 := by omega
  have n2 : s2 ≠ 255 := by omega
  simp [base64_DecodeString, d0, d1, d2, n0, n1, n2, p2]

theorem base64_decode_encode (bs : GoString) (hb : ∀ b ∈ bs, b < 256) :
    base64_DecodeString (base64_EncodeToString bs) = some bs := by
  induction bs using base64_EncodeToString.induct with
  | case1 => rfl
  | case2 a =>
    have ha : a < 256 := hb a (by simp)
    rw [base64_EncodeToString, decode_pad2 _ _ (by omega) (by omega)]
    congr 2
    omega
  | case3 a b =>
    have ha : a < 256 := hb a (by simp)
    have hb1 : b < 256 := hb b (by simp)
    rw [base64_EncodeToString, decode_pad1 _ _ _ (by omega) (by omega) (by omega)]
    have e0 : a / 4 * 4 + (a % 4 * 16 + b / 16) / 16 = a := by omega
    have e1 : (a % 4 * 16 + b / 16) % 16 * 16 + b % 16 * 4 / 4 = b := by omega
    rw [e0, e1]
  | case4 a b c rest ih =>
    have ha : a < 256 := hb a (by simp)
    have hb1 : b < 256 := hb b (by simp)
    have hc : c < 256 := hb c (by simp)
    have hrest : ∀ x ∈ rest, x < 256 := fun x hx => hb x (by simp [hx])
    rw [base64_EncodeToString,
      decode_quantum _ _ _ _ (by omega) (by omega) (by omega) (by omega), ih hrest]
    have e0 : a / 4 * 4 + (a % 4 * 16 + b / 16) / 16 = a := by omega
    have e1 : (a % 4 * 16 + b / 16) % 16 * 16 + (b % 16 * 4 + c / 64) / 4 = b := by omega
    have e2 : (b % 16 * 4 + c / 64) % 4 * 64 + c % 64 = c := by omega
    simp only [e0, e1, e2, List.cons_append, List.nil_append]

theorem base64_encode_class (bs : GoString) (hb : ∀ b ∈ bs, b < 256) :
    ∀ c ∈ base64_EncodeToString bs, inAuthClass c = true := by
  induction bs using base64_EncodeToString.induct with
  | case1 => simp [base64_EncodeToString]
  | case2 a =>
    have ha : a < 256 := hb a (by simp)
    intro c hc
    simp only [base64_EncodeToString, List.mem_cons, List.mem_singleton, List.not_mem_nil,
      or_false] at hc
    rcases hc with h | h | h | h
    · rw [h]; exact (encodeMap_facts _ (by omega)).2.2
    · rw [h]; exact (encodeMap_facts _ (by omega)).2.2
    · rw [h]; decide
    · rw [h]; decide
  | case3 a b =>
    have ha : a < 256 := hb a (by simp)
    have hb1 : b < 256 := hb b (by simp)
    intro c hc
    simp only [base64_EncodeToString, List.mem_cons, List.mem_singleton, List.not_mem_nil,
      or_false] at hc
    rcases hc with h | h | h | h
    · rw [h]; exact (encodeMap_facts _ (by omega)).2.2
    · rw [h]; exact (encodeMap_facts _ (by omega)).2.2
    · rw [h]; exact (encodeMap_facts _ (by omega)).2.2
    · rw [h]; decide
  | case4 a b c rest ih =>
    have ha : a < 256 := hb a (by simp)
    have hb1 : b < 256 := hb b (by simp)
    have hc : c < 256 := hb c (by simp)
    have hrest : ∀ x ∈ rest, x < 256 := fun x hx => hb x (by simp [hx])
    intro x hx
    simp only [base64_EncodeToString, List.mem_cons] at hx
    rcases hx with h | h | h | h | h
    · rw [h]; exact (encodeMap_facts _ (by omega)).2.2
    · rw [h]; exact (encodeMap_facts _ (by omega)).2.2
    · rw [h]; exact (encodeMap_facts _ (by omega)).2.2
    · rw [h]; exact (encodeMap_facts _ (by omega)).2.2
    · exact ih hrest x h

theorem base64_encode_ne_nil (bs : GoString) (h : bs ≠ []) : base64_EncodeToString bs ≠ [] := by
  match bs, h with
  | [_], _ => simp [base64_EncodeToString]
  | [_, _], _ => simp [base64_EncodeToString]
  | _ :: _ :: _ :: _, _ => simp [base64_EncodeToString]

theorem cutAtFirst_append (sep : Nat) (before after : GoString) (h : sep ∉ before) :
    cutAtFirst sep (before ++ sep :: after) = some (before, after) := by
  induction before with
  | nil => simp [cutAtFirst]
  | cons c rest ih =>
    simp only [List.mem_cons, not_or] at h
    have hne : ¬ c = sep := fun e => h.1 e.symm
    simp [cutAtFirst, hne, ih h.2]

/-! ## Basic authentication: round trip -/

theorem findStringSubmatch_basic (group : GoString) (hne : group ≠ [])
    (hclass : ∀ c ∈ group, inAuthClass c = true) :
    basic_auth_rgx_FindStringSubmatch (lit "Basic " ++ group)
      = [lit "Basic " ++ group, group] := by
  have hlen : (lit "Basic ").length = 6 := by decide
  have hdrop : List.drop 6 (lit "Basic " ++ group) = group := by
    rw [← hlen, List.drop_left]
  have htake : List.takeWhile inAuthClass group = group :=
    List.takeWhile_eq_self_iff.2 hclass
  have hpre : (lit "Basic ").isPrefixOf (lit "Basic " ++ group) = true := by
    rw [List.isPrefixOf_iff_prefix]
    exact List.prefix_append _ _
  simp only [basic_auth_rgx_FindStringSubmatch, hpre, if_true, hdrop, htake, hne, if_false]

/-- C10: when the Authorization header is "Basic " followed by the standard
base64 encoding of `user`, a colon and `pass`, where `user` and `pass` are byte
strings and `user` holds no colon, `GetBasicAuth` returns exactly `(user, pass)`:
the decoded payload is cut at its first colon only. -/
theorem GetBasicAuth_roundtrip (r : Request) (user pass : GoString)
    (huser : ∀ b ∈ user, b < 256) (hpass : ∀ b ∈ pass, b < 256) (hcolon : 58 ∉ user)
    (hauth : r.Authorization = lit "Basic " ++ base64_EncodeToString (user ++ 58 :: pass)) :
    GetBasicAuth r = (user, pass) := by
  have hbytes : ∀ b ∈ user ++ 58 :: pass, b < 256 := by
    intro b hb
    rcases List.mem_append.1 hb with h | h
    · exact huser b h
    · rcases List.mem_cons.1 h with h1 | h1
      · omega
      · exact hpass b h1
  have hne : user ++ 58 :: pass ≠ [] := by simp
  have hauth_ne : ¬ (lit "Basic " ++ base64_EncodeToString (user ++ 58 :: pass) = []) := by
    intro h
    have := congrArg List.length h
    simp [lit] at this
  simp only [GetBasicAuth, hauth, hauth_ne, if_false,
    findStringSubmatch_basic _ (base64_encode_ne_nil _ hne) (base64_encode_class _ hbytes),
    base64_decode_encode _ hbytes, bytes_SplitN_colon_2, cutAtFirst_append 58 user pass hcolon]

/-- Witness for C10: the header "Basic Zm9vOmJhcg==", the encoding of "foo:bar",
yields ("foo", "bar"); a password may itself hold a colon. -/
theorem GetBasicAuth_roundtrip_witness :
    (∀ b ∈ lit "foo", b < 256) ∧ (∀ b ∈ lit "bar", b < 256) ∧ 58 ∉ lit "foo" ∧
    exAuthRequest.Authorization
      = lit "Basic " ++ base64_EncodeToString (lit "foo" ++ 58 :: lit "bar") ∧
    base64_EncodeToString (lit "foo" ++ 58 :: lit "bar") = lit "Zm9vOmJhcg==" ∧
    GetBasicAuth exAuthRequest = (lit "foo", lit "bar") :=
  ⟨by decide, by decide, by decide, by decide, by decide,
   GetBasicAuth_roundtrip exAuthRequest (lit "foo") (lit "bar") (by decide) (by decide)
     (by decide) (by decide)⟩

/-! ## Basic authentication: degraded inputs -/

theorem cutAtFirst_eq_none (sep : Nat) (buf : GoString) (h : sep ∉ buf) :
    cutAtFirst sep buf = none := by
  induction buf with
  | nil => rfl
  | cons c rest ih =>
    simp only [List.mem_cons, not_or] at h
    have hne : ¬ c = sep := fun e => h.1 e.symm
    simp [cutAtFirst, hne, ih h.2]

theorem cutAtFirst_eq_some (sep : Nat) (buf before after : GoString)
    (h : cutAtFirst sep buf = some (before, after)) :
    buf = before ++ sep :: after ∧ sep ∉ before := by
  induction buf generalizing before with
  | nil => simp [cutAtFirst] at h
  | cons c rest ih =>
    by_cases hc : c = sep
    · simp only [cutAtFirst, hc, if_true, Option.some.injEq, Prod.mk.injEq] at h
      obtain ⟨h1, h2⟩ := h
      subst h1 h2
      simp [hc]
    · simp only [cutAtFirst, hc, if_false] at h
      cases hrec : cutAtFirst sep rest with
      | none => simp [hrec] at h
      | some p =>
        obtain ⟨b1, a1⟩ := p
        simp only [hrec, Option.some.injEq, Prod.mk.injEq] at h
        obtain ⟨h1, h2⟩ := h
        subst h1 h2
        obtain ⟨e1, e2⟩ := ih b1 hrec
        refine ⟨by simp [e1], ?_⟩
        simp only [List.mem_cons, not_or]
        exact ⟨fun e => hc e.symm, e2⟩

/-- The function `GetBasicAuth`, step by step. -/
theorem GetBasicAuth_unfold (r : Request) :
    GetBasicAuth r =
      if r.Authorization = [] then ([], [])
      else if (lit "Basic ").isPrefixOf r.Authorization = true then
        if (r.Authorization.drop 6).takeWhile inAuthClass = [] then ([], [])
        else
          match base64_DecodeString ((r.Authorization.drop 6).takeWhile inAuthClass) with
          | none => ([], [])
          | some buf =>
            match cutAtFirst 58 buf with
            | none => ([], [])
            | some up => up
      else ([], []) := by
  unfold GetBasicAuth basic_auth_rgx_FindStringSubmatch bytes_SplitN_colon_2
  by_cases h0 : r.Authorization = []
  · simp [h0]
  · by_cases h1 : (lit "Basic ").isPrefixOf r.Authorization = true
    · by_cases h2 : (r.Authorization.drop 6).takeWhile inAuthClass = []
      · simp [h0, h1, h2]
      · simp only [h0, h1, h2, if_false, if_true]
        cases base64_DecodeString ((r.Authorization.drop 6).takeWhile inAuthClass) with
        | none => rfl
        | some buf =>
          simp only
          cases cutAtFirst 58 buf with
          | none => rfl
          | some up => rfl
    · simp [h0, h1]

/-- C11, amended: `GetBasicAuth` is a total function and returns ("", "") when
the header is missing or empty, when it does not start with "Basic " followed by
a byte of the class `[a-zA-Z0-9+/=]`, when the longest run of class bytes after
"Basic " is not accepted by the base64 decoder, and when the decoded payload has
no colon. It returns anything else only when the header starts with "Basic "
followed by a run of class bytes that decodes to `user`, a colon and `pass`,
with no colon in `user`; it then returns `(user, pass)`, whatever follows that
run in the header. -/
theorem GetBasicAuth_degrades (r : Request) :
    (r.Authorization = [] → GetBasicAuth r = ([], [])) ∧
    ((lit "Basic ").isPrefixOf r.Authorization = false → GetBasicAuth r = ([], [])) ∧
    ((r.Authorization.drop 6).takeWhile inAuthClass = [] → GetBasicAuth r = ([], [])) ∧
    (base64_DecodeString ((r.Authorization.drop 6).takeWhile inAuthClass) = none →
      GetBasicAuth r = ([], [])) ∧
    (∀ buf, base64_DecodeString ((r.Authorization.drop 6).takeWhile inAuthClass) = some buf →
      58 ∉ buf → GetBasicAuth r = ([], [])) ∧
    (GetBasicAuth r ≠ ([], []) → ∃ group rest user pass,
      r.Authorization = lit "Basic " ++ group ++ rest ∧ group ≠ [] ∧
      (∀ c ∈ group, inAuthClass c = true) ∧
      base64_DecodeString group = some (user ++ 58 :: pass) ∧ 58 ∉ user ∧
      GetBasicAuth r = (user, pass)) := by
  rw [GetBasicAuth_unfold]
  refine ⟨?_, ?_, ?_, ?_, ?_, ?_⟩
  · intro h
    simp [h]
  · intro h
    simp [h]
  · intro h
    simp [h]
  · intro h
    simp [h]
  · intro buf h hc
    simp [h, cutAtFirst_eq_none 58 buf hc]
  · intro hne
    by_cases h0 : r.Authorization = []
    · simp [h0] at hne
    · by_cases h1 : (lit "Basic ").isPrefixOf r.Authorization = true
      · by_cases h2 : (r.Authorization.drop 6).takeWhile inAuthClass = []
        · simp [h0, h1, h2] at hne
        · simp only [h0, h1, h2, if_false, if_true] at hne ⊢
          cases hd : base64_DecodeString ((r.Authorization.drop 6).takeWhile inAuthClass) with
          | none => simp [hd] at hne
          | some buf =>
            simp only [hd] at hne ⊢
            cases hcut : cutAtFirst 58 buf with
            | none => simp [hcut] at hne
            | some up =>
              obtain ⟨user, pass⟩ := up
              obtain ⟨hbuf, hcolon⟩ := cutAtFirst_eq_some 58 buf user pass hcut
              refine ⟨(r.Authorization.drop 6).takeWhile inAuthClass,
                (r.Authorization.drop 6).dropWhile inAuthClass, user, pass, ?_, h2, ?_, ?_,
                hcolon, rfl⟩
              · rw [List.append_assoc, List.takeWhile_append_dropWhile]
                obtain ⟨t, ht⟩ := List.isPrefixOf_iff_prefix.1 h1
                have hlen : (lit "Basic ").length = 6 := by decide
                rw [← ht, ← hlen, List.drop_left]
              · intro c hc
                exact List.mem_takeWhile_imp hc
              · exact hd.trans (congrArg some hbuf)
      · rw [if_neg h0, if_neg h1] at hne
        exact absurd rfl hne

/-- Witness for C11: a missing header and "Basic !!!invalid!!!" both yield ("", ""). -/
theorem GetBasicAuth_degrades_witness :
    exNoAuth.Authorization = [] ∧ GetBasicAuth exNoAuth = ([], []) ∧
    (exInvalidAuth.Authorization.drop 6).takeWhile inAuthClass = [] ∧
    GetBasicAuth exInvalidAuth = ([], []) :=
  ⟨rfl, (GetBasicAuth_degrades exNoAuth).1 rfl, by decide,
   (GetBasicAuth_degrades exInvalidAuth).2.2.1 (by decide)⟩

/-- Counterexample to C11 as stated: the header "Basic Zm9vOmJhcg== trailing"
yields ("foo", "bar"), although what follows "Basic " in it is not valid base64. -/
theorem GetBasicAuth_degrades_counterexample :
    GetBasicAuth exTrailingAuth = (lit "foo", lit "bar") ∧
    (lit "Basic ").isPrefixOf exTrailingAuth.Authorization = true ∧
    base64_DecodeString (exTrailingAuth.Authorization.drop 6) = none ∧
    ¬ ∃ payload, exTrailingAuth.Authorization = lit "Basic " ++ base64_EncodeToString payload := by
  refine ⟨by decide, by decide, by decide, ?_⟩
  rintro ⟨payload, h⟩
  have h1 : List.drop 6 exTrailingAuth.Authorization = base64_EncodeToString payload := by
    have hlen : (lit "Basic ").length = 6 := by decide
    rw [h, ← hlen, List.drop_left]
  have h2 : (32 : Nat) ∈ base64_EncodeToString payload := by
    rw [← h1]
    decide
  have h3 : ∀ bs : GoString, ∀ c ∈ base64_EncodeToString bs, c ≠ 32 := by
    intro bs
    induction bs using base64_EncodeToString.induct with
    | case1 => simp [base64_EncodeToString]
    | case2 a =>
      intro c hc
      simp only [base64_EncodeToString, List.mem_cons, List.mem_singleton, List.not_mem_nil,
        or_false] at hc
      rcases hc with h | h | h | h <;> subst h <;> (try unfold encodeMap) <;>
        (try split_ifs) <;> omega
    | case3 a b =>
      intro c hc
      simp only [base64_EncodeToString, List.mem_cons, List.mem_singleton, List.not_mem_nil,
        or_false] at hc
      rcases hc with h | h | h | h <;> subst h <;> (try unfold encodeMap) <;>
        (try split_ifs) <;> omega
    | case4 a b c rest ih =>
      intro x hx
      simp only [base64_EncodeToString, List.mem_cons] at hx
      rcases hx with h | h | h | h | h
      · subst h; unfold encodeMap; split_ifs <;> omega
      · subst h; unfold encodeMap; split_ifs <;> omega
      · subst h; unfold encodeMap; split_ifs <;> omega
      · subst h; unfold encodeMap; split_ifs <;> omega
      · exact ih x h
  exact h3 payload 32 h2 rfl

/-! ## The reboot route -/

/-- C12: `handle_reboot` replies 501 iff the method is not "POST"; to a POST it
replies with the confirmation (200) iff `GetBasicAuth` yields exactly
("foo", "bar") and with 403 otherwise, in particular when the header is missing
or its payload does not decode; served against any registry, it leaves the
registry as it was and invokes no callback. -/
theorem handle_reboot_gating {V : Type} [Inhabited V] (json : JSON V)
    (state : GoMap (stateEntry V)) (r : Request) :
    ((∃ body, handle_reboot r = Reply.http 501 body) ↔ r.Method ≠ lit "POST") ∧
    (r.Method ≠ lit "POST" →
      handle_reboot r = Reply.http 501 (lit "HTTP Method not implemented, use POST")) ∧
    (r.Method = lit "POST" →
      ((∃ body, handle_reboot r = Reply.http 200 body) ↔
        GetBasicAuth r = (lit "foo", lit "bar")) ∧
      (GetBasicAuth r = (lit "foo", lit "bar") →
        handle_reboot r = Reply.http 200 (lit "I would totaly reboot now.")) ∧
      (GetBasicAuth r ≠ (lit "foo", lit "bar") →
        handle_reboot r = Reply.http 403 (lit "Specify user and password")) ∧
      (r.Authorization = [] →
        handle_reboot r = Reply.http 403 (lit "Specify user and password")) ∧
      (base64_DecodeString ((r.Authorization.drop 6).takeWhile inAuthClass) = none →
        handle_reboot r = Reply.http 403 (lit "Specify user and password"))) ∧
    (serve json Handler.reboot state r).state = state ∧
    (serve json Handler.reboot state r).calls = [] := by
  have hok : GetBasicAuth r = (lit "foo", lit "bar") → r.Method = lit "POST" →
      handle_reboot r = Reply.http 200 (lit "I would totaly reboot now.") := by
    intro h hm
    simp [handle_reboot, hm, h]
  have hno : GetBasicAuth r ≠ (lit "foo", lit "bar") → r.Method = lit "POST" →
      handle_reboot r = Reply.http 403 (lit "Specify user and password") := by
    intro h hm
    have h1 : (GetBasicAuth r).1 ≠ lit "foo" ∨ (GetBasicAuth r).2 ≠ lit "bar" := by
      by_contra hc
      simp only [not_or, not_not] at hc
      exact h (Prod.ext hc.1 hc.2)
    simp only [handle_reboot, hm, ne_eq, not_true_eq_false, if_false, h1, if_true]
  have hempty : GetBasicAuth r = ([], []) → GetBasicAuth r ≠ (lit "foo", lit "bar") := by
    intro h
    rw [h]
    decide
  refine ⟨⟨?_, ?_⟩, ?_, ?_, rfl, rfl⟩
  · rintro ⟨body, hb⟩ hm
    by_cases hc : GetBasicAuth r = (lit "foo", lit "bar")
    · rw [hok hc hm] at hb
      simp at hb
    · rw [hno hc hm] at hb
      simp at hb
  · intro hm
    exact ⟨lit "HTTP Method not implemented, use POST", by simp [handle_reboot, hm]⟩
  · intro hm
    simp [handle_reboot, hm]
  · intro hm
    refine ⟨⟨?_, fun h => ⟨_, hok h hm⟩⟩, fun h => hok h hm, fun h => hno h hm, ?_, ?_⟩
    · rintro ⟨body, hb⟩
      by_contra hc
      rw [hno hc hm] at hb
      simp at hb
    · intro h
      exact hno (hempty ((GetBasicAuth_unfold r).trans (by simp [h]))) hm
    · intro h
      exact hno (hempty ((GetBasicAuth_unfold r).trans (by simp [h]))) hm

/-- Witness for C12: a GET gets 501, a POST with the header of "foo:bar" gets the
confirmation, a POST without a header gets 403. -/
theorem handle_reboot_gating_witness :
    exNoAuthGet.Method ≠ lit "POST" ∧
    handle_reboot exNoAuthGet = Reply.http 501 (lit "HTTP Method not implemented, use POST") ∧
    exAuthRequest.Method = lit "POST" ∧
    GetBasicAuth exAuthRequest = (lit "foo", lit "bar") ∧
    handle_reboot exAuthRequest = Reply.http 200 (lit "I would totaly reboot now.") ∧
    exNoAuth.Authorization = [] ∧
    handle_reboot exNoAuth = Reply.http 403 (lit "Specify user and password") :=
  ⟨by decide,
   (handle_reboot_gating (exJSON exMsgBatch) exState exNoAuthGet).2.1 (by decide),
   by decide, by decide,
   ((handle_reboot_gating (exJSON exMsgBatch) exState exAuthRequest).2.2.1 (by decide)).2.1
     (by decide),
   rfl,
   ((handle_reboot_gating (exJSON exMsgBatch) exState exNoAuth).2.2.1 (by decide)).2.2.2.1 rfl⟩

/-! ## The GET branch as a whole -/

theorem handle_state_get {V : Type} [Inhabited V] (json : JSON V)
    (state : GoMap (stateEntry V)) (r : Request) (p : GoString)
    (hmethod : r.Method = lit "GET") (hpath : r.Path = lit "/_/state/" ++ p) :
    handle_state json state r =
      match json.MarshalIndent (filterState state p) with
      | Except.error _ => { state := state, calls := [], reply := Reply.fatal }
      | Except.ok bytes => { state := state, calls := [], reply := Reply.http 200 bytes } := by
  have hlen9 : (lit "/_/state/").length = 9 := by decide
  have hlen : ¬ (lit "/_/state/" ++ p).length < 9 := by
    simp [List.length_append, hlen9]
  have hdrop : List.drop 9 (lit "/_/state/" ++ p) = p := by
    rw [← hlen9, List.drop_left]
  simp only [handle_state, hmethod, if_true, hpath, hlen, if_false, hdrop]

theorem handle_state_get_frame {V : Type} [Inhabited V] (json : JSON V)
    (state : GoMap (stateEntry V)) (r : Request) (hmethod : r.Method = lit "GET") :
    (handle_state json state r).state = state ∧ (handle_state json state r).calls = [] := by
  simp only [handle_state, hmethod, if_true]
  split
  · exact ⟨rfl, rfl⟩
  · split <;> exact ⟨rfl, rfl⟩

/-- C13, amended: a GET on the state route never changes the registry and never
invokes a callback. When the filtered snapshot serialises, the reply is 200 with
the serialised text; when serialisation fails, the handler ends in `log.Fatal`:
the process exits and the client gets no reply. -/
theorem handle_state_get_serialisation {V : Type} [Inhabited V] (json : JSON V)
    (state : GoMap (stateEntry V)) (r : Request) (p : GoString)
    (hmethod : r.Method = lit "GET") (hpath : r.Path = lit "/_/state/" ++ p) :
    (handle_state json state r).state = state ∧
    (handle_state json state r).calls = [] ∧
    (∀ bytes, json.MarshalIndent (filterState state p) = Except.ok bytes →
      (handle_state json state r).reply = Reply.http 200 bytes) ∧
    (∀ err, json.MarshalIndent (filterState state p) = Except.error err →
      (handle_state json state r).reply = Reply.fatal) := by
  obtain ⟨h1, h2⟩ := handle_state_get_frame json state r hmethod
  refine ⟨h1, h2, ?_, ?_⟩
  · intro bytes hb
    rw [handle_state_get json state r p hmethod hpath, hb]
  · intro err he
    rw [handle_state_get json state r p hmethod hpath, he]

/-- Witness for C13: the door / message registry serialises and the GET is
answered 200. -/
theorem handle_state_get_serialisation_witness :
    exGet.Method = lit "GET" ∧ exGet.Path = lit "/_/state/" ++ lit "m" ∧
    (exJSON exMsgBatch).MarshalIndent (filterState exState (lit "m")) = Except.ok [] ∧
    (handle_state (exJSON exMsgBatch) exState exGet).reply = Reply.http 200 [] :=
  ⟨by decide, by decide, rfl,
   (handle_state_get_serialisation (exJSON exMsgBatch) exState exGet (lit "m") (by decide)
      (by decide)).2.2.1 [] rfl⟩

/-- Counterexample to C13 as stated: with a channel registered under `ch`, a GET
for the whole state ends the process and produces no HTTP reply. -/
theorem handle_state_get_serialisation_counterexample :
    mapIndex exChanState (lit "ch") = some ⟨ExValue.channel, false, none⟩ ∧
    (handle_state exChanJSON exChanState exGetAll).reply = Reply.fatal ∧
    ¬ ∃ status body,
      (handle_state exChanJSON exChanState exGetAll).reply = Reply.http status body := by
  have hrep : (handle_state exChanJSON exChanState exGetAll).reply = Reply.fatal := by decide
  refine ⟨by decide, hrep, ?_⟩
  rintro ⟨status, body, hb⟩
  rw [hrep] at hb
  cases hb

/-! ## Rejected requests on the state route -/

/-- C14: a request to `handle_state` whose method is neither "GET" nor "POST"
gets 501, and a POST whose body the JSON decoder rejects gets 500 with the text
"Could not decode JSON into a single map: " followed by the decoder's message;
in both cases the registry is unchanged and no callback is invoked. -/
theorem handle_state_rejected {V : Type} [Inhabited V] (json : JSON V)
    (state : GoMap (stateEntry V)) (r : Request) :
    (r.Method ≠ lit "GET" → r.Method ≠ lit "POST" →
      handle_state json state r =
        { state := state, calls := [],
          reply := Reply.http 501 (lit "HTTP Method not implemented, use GET or POST") }) ∧
    (r.Method = lit "POST" → ∀ err, json.Unmarshal r.Body = Except.error err →
      handle_state json state r =
        { state := state, calls := [],
          reply := Reply.http 500 (lit "Could not decode JSON into a single map: " ++ err) }) := by
  constructor
  · intro hg hp
    simp only [handle_state, hg, hp, if_false]
  · intro hm err he
    simp only [handle_state, hm, post_ne_get, if_false, if_true, he]

/-- Witness for C14: a DELETE gets 501 and an undecodable POST gets 500, on the
door / message registry. -/
theorem handle_state_rejected_witness :
    exDelete.Method ≠ lit "GET" ∧ exDelete.Method ≠ lit "POST" ∧
    handle_state (exJSON exMsgBatch) exState exDelete =
      { state := exState, calls := [],
        reply := Reply.http 501 (lit "HTTP Method not implemented, use GET or POST") } ∧
    exPost.Method = lit "POST" ∧
    exBadJSON.Unmarshal exPost.Body = Except.error (lit "invalid character") ∧
    handle_state exBadJSON exState exPost =
      { state := exState, calls := [],
        reply := Reply.http 500
          (lit "Could not decode JSON into a single map: " ++ lit "invalid character") } :=
  ⟨by decide, by decide,
   (handle_state_rejected (exJSON exMsgBatch) exState exDelete).1 (by decide) (by decide),
   by decide, rfl,
   (handle_state_rejected exBadJSON exState exPost).2 (by decide) _ rfl⟩

/-! ## Reads are repeatable -/

/-- C15: a GET leaves the registry unchanged and invokes no callback, so a
second GET with the same path, run right after the first, builds the same
snapshot and gives the same result. -/
theorem handle_state_get_repeatable {V : Type} [Inhabited V] (json : JSON V)
    (state : GoMap (stateEntry V)) (r : Request) (hmethod : r.Method = lit "GET") :
    (handle_state json state r).state = state ∧
    (handle_state json state r).calls = [] ∧
    (∀ p, filterState (handle_state json state r).state p = filterState state p) ∧
    (∀ r2 : Request, r2.Method = lit "GET" → r2.Path = r.Path →
      handle_state json (handle_state json state r).state r2 = handle_state json state r) := by
  obtain ⟨h1, h2⟩ := handle_state_get_frame json state r hmethod
  refine ⟨h1, h2, fun p => by rw [h1], ?_⟩
  intro r2 hm2 hp2
  rw [h1]
  simp only [handle_state, hmethod, hm2, hp2, if_true]

/-- Witness for C15: two GETs for the whole door / message registry see the same snapshot. -/
theorem handle_state_get_repeatable_witness :
    exGetAll.Method = lit "GET" ∧
    filterState (handle_state (exJSON exMsgBatch) exState exGetAll).state []
      = [(lit "door", lit "locked"), (lit "msg", lit "")] ∧
    filterState (handle_state (exJSON exMsgBatch) exState exGetAll).state []
      = filterState exState [] :=
  ⟨by decide, by decide,
   (handle_state_get_repeatable (exJSON exMsgBatch) exState exGetAll (by decide)).2.2.1 []⟩

/-! ## Invariants of the reachable registries -/

theorem mem_mapAssign {α : Type} (m : GoMap α) (k : GoString) (v : α) (p : GoString × α)
    (hp : p ∈ mapAssign m k v) : p ∈ m ∨ p = (k, v) := by
  induction m with
  | nil =>
    simp only [mapAssign, List.mem_singleton] at hp
    exact Or.inr hp
  | cons q rest ih =>
    obtain ⟨k1, v1⟩ := q
    by_cases h : k1 = k
    · simp only [mapAssign, h, if_true, List.mem_cons] at hp
      rcases hp with hp | hp
      · exact Or.inr hp
      · exact Or.inl (List.mem_cons_of_mem _ hp)
    · simp only [mapAssign, h, if_false, List.mem_cons] at hp
      rcases hp with hp | hp
      · exact Or.inl (by rw [hp]; exact List.mem_cons_self _ _)
      · rcases ih hp with h1 | h1
        · exact Or.inl (List.mem_cons_of_mem _ h1)
        · exact Or.inr h1

/-- A property of the flag and the callback of every entry that holds of the zero
entry is kept by the commit loop, which only replaces values. -/
theorem commit_keeps_flags {V : Type} [Inhabited V]
    (P : Bool → Option StateModifiedCallback → Prop) (hzero : P false none)
    (l : GoMap V) (state : GoMap (stateEntry V))
    (hinv : ∀ p ∈ state, P p.2.Writable p.2.ModifiedCallback) :
    ∀ p ∈ (commit state l).state, P p.2.Writable p.2.ModifiedCallback := by
  induction l generalizing state with
  | nil => exact hinv
  | cons kv rest ih =>
    obtain ⟨k, v⟩ := kv
    have hentry : P ((mapIndex state k).getD (zeroEntry V)).Writable
        ((mapIndex state k).getD (zeroEntry V)).ModifiedCallback := by
      cases he : mapIndex state k with
      | none => exact hzero
      | some e => exact hinv (k, e) (mem_of_mapIndex state k e he)
    have hinv1 : ∀ p ∈ mapAssign state k
        { (mapIndex state k).getD (zeroEntry V) with Value := v },
        P p.2.Writable p.2.ModifiedCallback := by
      intro p hp
      rcases mem_mapAssign _ _ _ _ hp with h | h
      · exact hinv p h
      · rw [h]
        exact hentry
    simp only [commit]
    split
    · exact hinv1
    · exact ih _ hinv1

theorem handle_state_keeps_flags {V : Type} [Inhabited V]
    (P : Bool → Option StateModifiedCallback → Prop) (hzero : P false none)
    (json : JSON V) (state : GoMap (stateEntry V)) (r : Request)
    (hinv : ∀ p ∈ state, P p.2.Writable p.2.ModifiedCallback) :
    ∀ p ∈ (handle_state json state r).state, P p.2.Writable p.2.ModifiedCallback := by
  unfold handle_state
  split
  · split
    · exact hinv
    · simp only
      split <;> exact hinv
  · split
    · split
      · exact hinv
      · split
        · exact hinv
        · exact commit_keeps_flags P hzero _ state hinv
    · exact hinv

theorem reachable_flags {V : Type} [Inhabited V]
    (allowed : Option StateModifiedCallback → Prop)
    (P : Bool → Option StateModifiedCallback → Prop) (hzero : P false none)
    (hreg : ∀ cb, allowed cb → P true cb)
    (state : GoMap (stateEntry V)) (h : Reachable allowed state) :
    ∀ p ∈ state, P p.2.Writable p.2.ModifiedCallback := by
  induction h with
  | init =>
    intro p hp
    simp [Init] at hp
  | setState state key value _ ih =>
    intro p hp
    rcases mem_mapAssign _ _ _ _ hp with h | h
    · exact ih p h
    · rw [h]
      exact hzero
  | setWritableState state key value callback hcb _ ih =>
    intro p hp
    rcases mem_mapAssign _ _ _ _ hp with h | h
    · exact ih p h
    · rw [h]
      exact hreg callback hcb
  | request state json hd r _ ih =>
    cases hd with
    | state => exact handle_state_keeps_flags P hzero json state r ih
    | reboot => exact ih

/-- C16: in every registry reachable from the empty registry of `Init` through
`SetState`, `SetWritableState` (with any callback, nil included) and served
requests, every entry that has a callback is writable; no read-only entry
carries a callback. -/
theorem callback_implies_writable {V : Type} [Inhabited V]
    (allowed : Option StateModifiedCallback → Prop) (state : GoMap (stateEntry V))
    (h : Reachable allowed state) :
    (∀ p ∈ state, p.2.ModifiedCallback ≠ none → p.2.Writable = true) ∧
    (∀ k e, mapIndex state k = some e → e.ModifiedCallback ≠ none → e.Writable = true) ∧
    (∀ k e, mapIndex state k = some e → e.Writable = false → e.ModifiedCallback = none) := by
  have hall := reachable_flags allowed (fun w c => c ≠ none → w = true)
    (fun hc => absurd rfl hc) (fun _ _ _ => rfl) state h
  refine ⟨hall, fun k e he => hall (k, e) (mem_of_mapIndex state k e he), ?_⟩
  intro k e he hw
  by_contra hc
  have := hall (k, e) (mem_of_mapIndex state k e he) hc
  simp only at this
  rw [hw] at this
  cases this

/-- Witness for C16: the door / message registry, after a POST that was served,
is reachable; its entry with a callback, `msg`, is writable. -/
theorem callback_implies_writable_witness :
    Reachable (fun _ => True) (serve (exJSON exMsgBatch) Handler.state exState exPost).state ∧
    mapIndex (serve (exJSON exMsgBatch) Handler.state exState exPost).state (lit "msg")
      = some ⟨lit "hello", true, some 1⟩ ∧
    (∀ k e, mapIndex (serve (exJSON exMsgBatch) Handler.state exState exPost).state k = some e →
      e.ModifiedCallback ≠ none → e.Writable = true) :=
  have hreach : Reachable (fun _ => True)
      (serve (exJSON exMsgBatch) Handler.state exState exPost).state :=
    Reachable.request _ _ _ _
      (Reachable.setWritableState _ _ _ _ trivial (Reachable.setState _ _ _ Reachable.init))
  ⟨hreach, by decide, (callback_implies_writable (fun _ => True) _ hreach).2.1⟩

/-! ## The commit loop and nil callbacks -/

/-- C18: when the host passes only non-nil callbacks to `SetWritableState`, every
writable entry of every reachable registry has a callback, and no POST served on
such a registry panics: the unguarded call in the commit loop always meets a
function. Without that condition the call can fail: after
`SetWritableState(k, v, nil)` the POST of a batch on `k` alone passes the check
and panics. -/
theorem commit_never_calls_nil {V : Type} [Inhabited V] (state : GoMap (stateEntry V))
    (h : Reachable (fun cb => cb ≠ none) state) :
    (∀ k e, mapIndex state k = some e → e.Writable = true → e.ModifiedCallback ≠ none) ∧
    (∀ (json : JSON V) (r : Request), r.Method = lit "POST" →
      (handle_state json state r).reply ≠ Reply.panicked) ∧
    (∀ (state0 : GoMap (stateEntry V)) (k : GoString) (v newV : V) (json : JSON V)
      (r : Request) (postedState : PostedState V),
      r.Method = lit "POST" → json.Unmarshal r.Body = Except.ok postedState →
      postedState.validateOrder = [(k, newV)] →
      validate (SetWritableState state0 k v none) postedState.validateOrder = none ∧
      (handle_state json (SetWritableState state0 k v none) r).reply = Reply.panicked) := by
  have hall := reachable_flags (fun cb => cb ≠ none) (fun w c => w = true → c ≠ none)
    (fun hw => by cases hw) (fun _ hcb _ => hcb) state h
  have hidx : ∀ k e, mapIndex state k = some e → e.Writable = true →
      e.ModifiedCallback ≠ none :=
    fun k e he => hall (k, e) (mem_of_mapIndex state k e he)
  refine ⟨hidx, ?_, ?_⟩
  · intro json r hm
    cases hdec : json.Unmarshal r.Body with
    | error err =>
      simp [handle_state, hm, post_ne_get, hdec]
    | ok postedState =>
      cases hval : validate state postedState.validateOrder with
      | some rep =>
        rw [handle_state_post_invalid json state r postedState rep hm hdec hval]
        obtain ⟨_, k, _, _, _, _, hcase⟩ := validate_eq_some state _ rep hval
        rcases hcase with ⟨_, hrep⟩ | ⟨_, _, _, hrep⟩ <;> simp [hrep]
      | none =>
        have hvalid := (validate_eq_none_iff state _).1 hval
        have hcb : ∀ k ∈ mapKeys postedState.validateOrder,
            ∃ e cb, mapIndex state k = some e ∧ e.ModifiedCallback = some cb := by
          intro k hk
          obtain ⟨e, he, hw⟩ := hvalid k hk
          have hne := hidx k e he hw
          cases hc : e.ModifiedCallback with
          | none => exact absurd hc hne
          | some cb => exact ⟨e, cb, he, hc⟩
        rw [handle_state_post_valid json state r postedState hm hdec hvalid,
          (commit_state_spec state postedState hcb).1]
        simp
  · intro state0 k v newV json r postedState hm hdec hbatch
    have hcommit : postedState.commitOrder = [(k, newV)] := by
      have := postedState.same
      rw [hbatch] at this
      exact List.perm_singleton.1 this
    have hrw : mapIndex (SetWritableState state0 k v none) k = some ⟨v, true, none⟩ :=
      mapIndex_mapAssign_self _ _ _
    constructor
    · simp [hbatch, validate, hrw]
    · simp [handle_state, hm, post_ne_get, hdec, hbatch, hcommit, validate, commit, hrw]

/-- Witness for C18: the door / message registry was built with a non-nil
callback; a POST on it does not panic. -/
theorem commit_never_calls_nil_witness :
    Reachable (fun cb => cb ≠ none) exState ∧
    exPost.Method = lit "POST" ∧
    (handle_state (exJSON exMsgBatch) exState exPost).reply ≠ Reply.panicked :=
  have hreach : Reachable (fun cb => cb ≠ none) exState :=
    Reachable.setWritableState _ _ _ _ (by decide) (Reachable.setState _ _ _ Reachable.init)
  ⟨hreach, by decide, (commit_never_calls_nil exState hreach).2.1 (exJSON exMsgBatch) exPost
    (by decide)⟩

end Rzlbus
